import Mathlib

/-
  Verification development for the hierarchical connectivity extraction engine
  (dbHierNetworkProcessor.cc).  The C++ data structures are shallowly embedded:
  std::map / std::set containers become association lists over decidable keys
  (first-match lookup, as for unique-key maps), machine integers become Nat/Int,
  the external geometric primitives (db::Box, db::ICplxTrans restricted to the
  translation fragment, the polygon interaction predicate) are modelled by
  concrete integer boxes, translations and an explicit predicate parameter.
-/

/-! ## Association list helpers (std::map semantics) -/

/-- First-match lookup in an association list (std::map::find). -/
def alookup {α β : Type} [DecidableEq α] : List (α × β) → α → Option β
  | [], _ => none
  | (k, v) :: t, a => if k = a then some v else alookup t a

/-- Insert-or-assign (std::map::operator[] followed by assignment): replaces the
first binding of the key, appends a fresh binding when the key is absent. -/
def aset {α β : Type} [DecidableEq α] : List (α × β) → α → β → List (α × β)
  | [], a, b => [(a, b)]
  | (k, v) :: t, a, b => if k = a then (a, b) :: t else (k, v) :: aset t a b

/-- Read-modify-write through std::map::operator[]: the key's value (or the
default `d` for an absent key) is replaced by `f` of it. -/
def amod {α β : Type} [DecidableEq α] : List (α × β) → α → β → (β → β) → List (α × β)
  | [], a, d, f => [(a, f d)]
  | (k, v) :: t, a, d, f => if k = a then (k, f v) :: t else (k, v) :: amod t a d f

/-- Key removal (std::map::erase); dropping every binding of the key is
observationally the same as erasing the unique binding of a map. -/
def aerase {α β : Type} [DecidableEq α] (l : List (α × β)) (a : α) : List (α × β) :=
  l.filter (fun p => p.1 ≠ a)

@[simp] theorem alookup_nil {α β : Type} [DecidableEq α] (a : α) :
    alookup ([] : List (α × β)) a = none := rfl

@[simp] theorem alookup_cons {α β : Type} [DecidableEq α] (k : α) (v : β) (t : List (α × β)) (a : α) :
    alookup ((k, v) :: t) a = if k = a then some v else alookup t a := rfl

theorem alookup_aset {α β : Type} [DecidableEq α] (l : List (α × β)) (a : α) (b : β) (j : α) :
    alookup (aset l a b) j = if a = j then some b else alookup l j := by
  induction l with
  | nil => by_cases h : a = j <;> simp [aset, h]
  | cons p t ih =>
    obtain ⟨k, v⟩ := p
    by_cases hk : k = a
    · subst hk
      by_cases h : k = j <;> simp [aset, h]
    · by_cases hkj : k = j
      · subst hkj
        simp [aset, hk, Ne.symm hk]
      · by_cases h : a = j
        · subst h
          simp [aset, hk, hkj, ih]
        · simp [aset, hk, hkj, ih, h]

theorem alookup_amod {α β : Type} [DecidableEq α] (l : List (α × β)) (a : α) (d : β) (f : β → β) (j : α) :
    alookup (amod l a d f) j =
      if a = j then some (f ((alookup l a).getD d)) else alookup l j := by
  induction l with
  | nil => by_cases h : a = j <;> simp [amod, h]
  | cons p t ih =>
    obtain ⟨k, v⟩ := p
    by_cases hk : k = a
    · subst hk
      by_cases h : k = j <;> simp [amod, h]
    · by_cases hkj : k = j
      · subst hkj
        simp [amod, hk, Ne.symm hk]
      · by_cases h : a = j
        · subst h
          simp [amod, hk, hkj, ih]
        · simp [amod, hk, hkj, ih, h]

theorem alookup_aerase {α β : Type} [DecidableEq α] (l : List (α × β)) (a : α) (j : α) :
    alookup (aerase l a) j = if a = j then none else alookup l j := by
  induction l with
  | nil => by_cases h : a = j <;> simp [aerase, h]
  | cons p t ih =>
    obtain ⟨k, v⟩ := p
    by_cases hk : k = a
    · subst hk
      by_cases h : k = j <;> simp [aerase, h, ih] at ih ⊢ <;> simp [ih]
    · by_cases hkj : k = j
      · subst hkj
        have : a ≠ k := Ne.symm hk
        simp [aerase, hk, this]
      · by_cases h : a = j <;> simp [aerase, hk, hkj, h, ih] at ih ⊢ <;> simp [ih]

theorem alookup_foldl_aset {α β : Type} [DecidableEq α]
    (l : List α) (b : β) (m : List (α × β)) (j : α) :
    alookup (l.foldl (fun m i => aset m i b) m) j =
      if j ∈ l then some b else alookup m j := by
  induction l generalizing m with
  | nil => simp
  | cons x t ih =>
    by_cases hx : j = x
    · subst hx
      by_cases ht : j ∈ t <;> simp [ih, ht, alookup_aset]
    · by_cases ht : j ∈ t <;> simp [ih, ht, alookup_aset, hx, Ne.symm hx]

/-! ## Geometry: integer boxes and translations

The external primitives (db::Box with its empty-box convention, db::interact on
boxes = closed-box touching, db::ICplxTrans) are modelled by integer boxes and
by the translation fragment of the affine transforms. -/

/-- Integer box; `xl > xr` or `yb > yt` encodes the empty box (db::Box ()). -/
structure IBox where
  xl : Int
  yb : Int
  xr : Int
  yt : Int
deriving DecidableEq

/-- The default-constructed (empty) box. -/
def IBox.emptyBox : IBox := ⟨0, 0, -1, -1⟩

def IBox.isEmpty (bx : IBox) : Bool := decide (bx.xr < bx.xl) || decide (bx.yt < bx.yb)

def IBox.width (bx : IBox) : Int := bx.xr - bx.xl

def IBox.height (bx : IBox) : Int := bx.yt - bx.yb

/-- Box center with C++ integer division (truncation toward zero). -/
def IBox.centerX (bx : IBox) : Int := Int.tdiv (bx.xl + bx.xr) 2

def IBox.centerY (bx : IBox) : Int := Int.tdiv (bx.yb + bx.yt) 2

def IBox.area (bx : IBox) : Int :=
  if bx.isEmpty then 0 else (bx.xr - bx.xl) * (bx.yt - bx.yb)

/-- Box union (db::Box::operator+=). -/
def IBox.join (a b : IBox) : IBox :=
  if a.isEmpty then b
  else if b.isEmpty then a
  else ⟨min a.xl b.xl, min a.yb b.yb, max a.xr b.xr, max a.yt b.yt⟩

/-- db::interact on two boxes: both non-empty and the closed boxes touch. -/
def boxInteract (a b : IBox) : Bool :=
  !a.isEmpty && !b.isEmpty &&
    decide (a.xl ≤ b.xr) && decide (b.xl ≤ a.xr) &&
    decide (a.yb ≤ b.yt) && decide (b.yb ≤ a.yt)

/-- Translation fragment of db::ICplxTrans. -/
structure ITrans where
  dx : Int
  dy : Int
deriving DecidableEq

def ITrans.unit : ITrans := ⟨0, 0⟩

/-- Transform composition (`trans * Trans (b.trans ())`). -/
def ITrans.comp (t u : ITrans) : ITrans := ⟨t.dx + u.dx, t.dy + u.dy⟩

/-- Box transformed by a translation; empty boxes stay empty. -/
def IBox.transformed (bx : IBox) (t : ITrans) : IBox :=
  ⟨bx.xl + t.dx, bx.yb + t.dy, bx.xr + t.dx, bx.yt + t.dy⟩

/-! ## Shapes: db::PolygonRef by contract

A polygon reference carries a body and a per-shape transform.  The body is
modelled by its bounding box, a box-or-polygon flag and an opaque identity;
the polygon-vs-polygon interaction predicate is an explicit parameter, as the
geometric library is external to this source. -/

structure PolyObj where
  is_box : Bool
  pbox : IBox
  body : Nat
deriving DecidableEq

structure PolygonRef where
  obj : PolyObj
  ptrans : ITrans
deriving DecidableEq

/-- box_convert of a PolygonRef: the body box under the per-shape transform. -/
def PolygonRef.sbox (s : PolygonRef) : IBox := s.obj.pbox.transformed s.ptrans

/-- The polygon-vs-polygon interaction predicate, by contract: it receives both
bodies each with its accumulated world transform. -/
def PInteract : Type := PolyObj → ITrans → PolyObj → ITrans → Bool

/-- interaction_test (dbHierNetworkProcessor.cc, lines 116-126): if both shapes
are boxes, db::interact on the world-space boxes; otherwise the polygon
interaction predicate on the transformed bodies. -/
def interaction_test (pint : PInteract) (a b : PolygonRef) (trans : ITrans) : Bool :=
  if a.obj.is_box && b.obj.is_box then
    boxInteract (a.obj.pbox.transformed a.ptrans) (b.obj.pbox.transformed (trans.comp b.ptrans))
  else
    pint a.obj a.ptrans b.obj (trans.comp b.ptrans)

/-! ## Connectivity -/

structure Connectivity where
  connected : List (Nat × Finset Nat)
  all_layers : Finset Nat
deriving DecidableEq

def Connectivity.emptyConn : Connectivity := ⟨[], ∅⟩

/-- Connectivity::connect (la, lb): symmetric insertion, both layers recorded. -/
def Connectivity.connect2 (c : Connectivity) (la lb : Nat) : Connectivity :=
  { connected := amod (amod c.connected la ∅ (insert lb)) lb ∅ (insert la)
    all_layers := insert lb (insert la c.all_layers) }

/-- Connectivity::connect (l): a self loop. -/
def Connectivity.connect1 (c : Connectivity) (l : Nat) : Connectivity :=
  { connected := amod c.connected l ∅ (insert l)
    all_layers := insert l c.all_layers }

/-- The neighbor set of a layer (empty when the layer is not recorded, matching
begin_connected / end_connected on s_empty_layers). -/
def Connectivity.neighbors (c : Connectivity) (la : Nat) : Finset Nat :=
  (alookup c.connected la).getD ∅

/-- Connectivity::interacts (lines 140-149): false when `la` is unknown or `lb`
is not among its neighbors, otherwise the geometric interaction test. -/
def Connectivity.interacts (c : Connectivity) (pint : PInteract)
    (a : PolygonRef) (la : Nat) (b : PolygonRef) (lb : Nat) (trans : ITrans) : Bool :=
  match alookup c.connected la with
  | none => false
  | some s => if lb ∈ s then interaction_test pint a b trans else false

/-! ## local_cluster -/

/-- local_cluster: id, a bag of shapes tagged by layer, an attribute set.  The
cached m_bbox / m_size / m_needs_update of the source are represented by the
derived values (the source recomputes them in ensure_sorted before any use). -/
structure local_cluster where
  id : Nat
  shapes : List (Nat × PolygonRef)
  attrs : Finset Nat
deriving DecidableEq

/-- The default-constructed cluster (also the statically-owned empty cluster
returned for out-of-range ids). -/
def empty_cluster : local_cluster := ⟨0, [], ∅⟩

/-- local_cluster::clear: shapes, size, bbox and attrs are reset; the id is not
touched. -/
def local_cluster.clear (c : local_cluster) : local_cluster :=
  { c with shapes := [], attrs := ∅ }

/-- local_cluster::add_attr: only strictly positive attribute ids are inserted. -/
def local_cluster.add_attr (c : local_cluster) (a : Nat) : local_cluster :=
  if 0 < a then { c with attrs := insert a c.attrs } else c

/-- local_cluster::add. -/
def local_cluster.add (c : local_cluster) (s : PolygonRef) (la : Nat) : local_cluster :=
  { c with shapes := c.shapes ++ [(la, s)] }

/-- local_cluster::join_with: shape bags are merged per layer, attrs unioned. -/
def local_cluster.join_with (c o : local_cluster) : local_cluster :=
  { c with shapes := c.shapes ++ o.shapes, attrs := c.attrs ∪ o.attrs }

def local_cluster.size (c : local_cluster) : Nat := c.shapes.length

/-- The cluster bounding box: union of the shape boxes (value of m_bbox after
ensure_sorted). -/
def local_cluster.bbox (c : local_cluster) : IBox :=
  c.shapes.foldl (fun bx p => bx.join p.2.sbox) IBox.emptyBox

/-- Sum of the shape bounding box areas (denominator of the area ratio). -/
def local_cluster.area_sum (c : local_cluster) : Int :=
  c.shapes.foldl (fun a p => a + p.2.sbox.area) 0

/-- local_cluster::area_ratio; the C++ double quotient of the two integer
areas is modelled exactly by the rational bbox.area / area_sum
(Rat.divInt of the two integers). -/
def local_cluster.area_ratio (c : local_cluster) : Rat :=
  if c.bbox.isEmpty then 0
  else if c.area_sum = 0 then 0
  else Rat.divInt c.bbox.area c.area_sum

/-! ## split_cluster (area-ratio splitting, lines 437-494)

The recursion of the source descends into two strictly smaller clusters; it is
embedded with an explicit fuel argument that is structurally decreasing, called
with fuel = number of shapes, which the termination argument of the source
shows to be sufficient (each recursion level loses at least one shape). -/

/-- One dispatch test of split_cluster: shape goes to the first child when its
box center is left of / below the threshold. -/
def splitGoesLeft (bx : IBox) (s : PolygonRef) : Bool :=
  let xthr := if bx.height < bx.width then bx.centerX else bx.xl
  let ythr := if bx.height < bx.width then bx.yb else bx.centerY
  decide (s.sbox.centerX < xthr) || decide (s.sbox.centerY < ythr)

/-- The first child cluster of one split step: same id, the shapes dispatched
left of / below the threshold, no attrs (the source constructs blank clusters
and only adds shapes). -/
def split_a (cl : local_cluster) : local_cluster :=
  ⟨cl.id, cl.shapes.filter (fun p => splitGoesLeft cl.bbox p.2), ∅⟩

/-- The second child cluster of one split step. -/
def split_b (cl : local_cluster) : local_cluster :=
  ⟨cl.id, cl.shapes.filter (fun p => ! splitGoesLeft cl.bbox p.2), ∅⟩

/-- split_cluster: returns the emitted fragments (the source writes them to an
output iterator and returns their count; an empty result means no split).
Order as emitted by the source: the recursive fragments of both children
first, then the children themselves when their recursion emitted nothing. -/
def splitAux (r : Rat) : Nat → local_cluster → List local_cluster
  | 0, _ => []
  | fuel + 1, cl =>
    if cl.area_ratio < r then []
    else if (split_a cl).size = 0 ∨ (split_b cl).size = 0 then []
    else
      splitAux r fuel (split_a cl) ++ splitAux r fuel (split_b cl)
        ++ (if splitAux r fuel (split_a cl) = [] then [split_a cl] else [])
        ++ (if splitAux r fuel (split_b cl) = [] then [split_b cl] else [])

/-- local_cluster::split. -/
def local_cluster.split (cl : local_cluster) (r : Rat) : List local_cluster :=
  splitAux r cl.shapes.length cl

/-- Reassembly of a fragment list by local_cluster::join_with, starting from
the first fragment. -/
def reassemble : List local_cluster → local_cluster
  | [] => empty_cluster
  | f :: rest => rest.foldl local_cluster.join_with f

/-! ## local_clusters (lines 503-605) -/

/-- local_clusters: the backing store (slot i holds the cluster with id i+1)
plus the dummy-id counter. -/
structure local_clusters where
  clusters : List local_cluster
  next_dummy_id : Nat
deriving DecidableEq

def local_clusters.emptyL : local_clusters := ⟨[], 0⟩

/-- local_clusters::cluster_by_id (lines 519-538).  `none` models the
tl_assert (id > 0) failure; ids past the backing store yield the
statically-owned empty cluster. -/
def local_clusters.cluster_by_id (lc : local_clusters) (idv : Nat) : Option local_cluster :=
  if idv = 0 then none
  else if lc.clusters.length < idv then some empty_cluster
  else some (lc.clusters.getD (idv - 1) empty_cluster)

/-- local_clusters::remove_cluster (lines 540-554): ids 0 and out-of-range ids
are ignored; otherwise the slot is cleared in place, never erased. -/
def local_clusters.remove_cluster (lc : local_clusters) (idv : Nat) : local_clusters :=
  if idv = 0 ∨ lc.clusters.length < idv then lc
  else { lc with clusters := lc.clusters.set (idv - 1) (lc.clusters.getD (idv - 1) empty_cluster).clear }

/-- local_clusters::join_cluster_with (lines 556-575).  `none` models the
tl_assert (id > 0) failure; out-of-range arguments are ignored; otherwise the
target slot absorbs the other and the absorbed slot is cleared in place. -/
def local_clusters.join_cluster_with (lc : local_clusters) (idv with_id : Nat) :
    Option local_clusters :=
  if idv = 0 then none
  else if with_id = 0 ∨ lc.clusters.length < with_id ∨ lc.clusters.length < idv then some lc
  else
    let w := lc.clusters.getD (with_id - 1) empty_cluster
    let f := lc.clusters.getD (idv - 1) empty_cluster
    some { lc with clusters := (lc.clusters.set (idv - 1) (f.join_with w)).set (with_id - 1) w.clear }

/-- local_clusters::insert (lines 577-585): appends a blank cluster whose id is
its slot index + 1. -/
def local_clusters.insertNew (lc : local_clusters) : local_cluster × local_clusters :=
  let c : local_cluster := ⟨lc.clusters.length + 1, [], ∅⟩
  (c, { lc with clusters := lc.clusters ++ [c] })

/-- Modelled from the spec: insert_dummy lives in the header
(dbHierNetworkProcessor.h, not under src/); per spec section 4.D it allocates
the next id past the backing store, a bodyless cluster carrying upward edges. -/
def local_clusters.insert_dummy (lc : local_clusters) : Nat × local_clusters :=
  (lc.clusters.length + lc.next_dummy_id + 1, { lc with next_dummy_id := lc.next_dummy_id + 1 })

/-! ## connected_clusters (lines 740-795) -/

/-- ClusterInstance: a directed edge naming a child cluster id together with a
placement (InstElement: instance plus array index, modelled opaquely). -/
structure ClusterInstance where
  cid : Nat
  instElem : Nat × Nat
deriving DecidableEq

/-- connected_clusters: local clusters plus the connections map and its
reverse. -/
structure connected_clusters where
  base : local_clusters
  conns : List (Nat × List ClusterInstance)
  rev : List (ClusterInstance × Nat)
deriving DecidableEq

def connected_clusters.emptyC : connected_clusters := ⟨local_clusters.emptyL, [], []⟩

/-- connected_clusters::connections_for_cluster (lines 740-751): the statically
owned empty list when the id has no entry. -/
def connected_clusters.connections_for (cc : connected_clusters) (idv : Nat) :
    List ClusterInstance :=
  (alookup cc.conns idv).getD []

/-- connected_clusters::add_connection (lines 753-759). -/
def connected_clusters.add_connection (cc : connected_clusters) (idv : Nat)
    (ci : ClusterInstance) : connected_clusters :=
  { cc with conns := amod cc.conns idv [] (fun l => l ++ [ci]), rev := aset cc.rev ci idv }

/-- connected_clusters::find_cluster_with_connection (lines 785-795): 0 when
the instance is not recorded. -/
def connected_clusters.find_cluster_with_connection (cc : connected_clusters)
    (ci : ClusterInstance) : Nat :=
  (alookup cc.rev ci).getD 0

/-- connected_clusters::join_cluster_with (lines 761-783): equal ids return
immediately; otherwise the local clusters are joined, the absorbed id's edges
are appended to the target's list, their reverse entries repointed, and the
absorbed id's entry erased. -/
def connected_clusters.join_cluster_with (cc : connected_clusters) (idv with_id : Nat) :
    Option connected_clusters :=
  if idv = with_id then some cc
  else
    (cc.base.join_cluster_with idv with_id).map fun base2 =>
      let toJoin := cc.connections_for with_id
      { base := base2
        conns := aerase (amod cc.conns idv [] (fun l => l ++ toJoin)) with_id
        rev := toJoin.foldl (fun r c => aset r c idv) cc.rev }

/-- remove_cluster on connected_clusters: the inherited local_clusters
operation (the connections maps are not touched by it). -/
def connected_clusters.remove_cluster (cc : connected_clusters) (idv : Nat) :
    connected_clusters :=
  { cc with base := cc.base.remove_cluster idv }

def connected_clusters.insert_dummy (cc : connected_clusters) : Nat × connected_clusters :=
  let p := cc.base.insert_dummy
  (p.1, { cc with base := p.2 })

/-! ## hier_clusters (per-cell map, lines 1637-1659) -/

structure hier_clusters where
  per_cell : List (Nat × connected_clusters)
deriving DecidableEq

/-- hier_clusters::clusters_per_cell, const overload (lines 1637-1648): a
statically-owned empty connected_clusters for cells without an entry. -/
def hier_clusters.clusters_per_cell (hc : hier_clusters) (ci : Nat) : connected_clusters :=
  (alookup hc.per_cell ci).getD connected_clusters.emptyC

/-! ## hc_receiver: instance-to-instance promotion (lines 1087-1120)

The promotion step of add_single_pair, given the two resolved paths k1 and k2
of an interacting pair of child clusters. -/

def promote_pair (cc : connected_clusters) (k1 k2 : ClusterInstance) :
    Option connected_clusters :=
  let x1 := cc.find_cluster_with_connection k1
  let x2 := cc.find_cluster_with_connection k2
  if x1 = 0 then
    if x2 = 0 then
      let p := cc.insert_dummy
      some ((p.2.add_connection p.1 k1).add_connection p.1 k2)
    else
      some (cc.add_connection x2 k1)
  else if x2 = 0 then
    some (cc.add_connection x1 k2)
  else if x1 ≠ x2 then
    let y1 := if (cc.connections_for x1).length < (cc.connections_for x2).length then x2 else x1
    let y2 := if (cc.connections_for x1).length < (cc.connections_for x2).length then x1 else x2
    (cc.join_cluster_with y1 y2).map (fun cc2 => cc2.remove_cluster y2)
  else some cc

/-! ## hc_receiver: local-to-instance promotion (lines 1247-1273)

The body of add_single_pair (local cluster vs. child instance) once a child
cluster j with path k2 has been found to interact with local cluster c1: a
join is buffered via mark_to_join when the child path already connects another
cluster, otherwise an edge is added.  The join-set state is below. -/

/-- The deferred join-set state of hc_receiver: a list of labelled sets
(labels model the stable std::list iterators held in m_cm2join_map) plus the
id-to-set map m_cm2join_map. -/
structure JoinState where
  sets : List (Nat × Finset Nat)
  idx : List (Nat × Nat)
  fresh : Nat
deriving DecidableEq

def JoinState.emptyJ : JoinState := ⟨[], [], 0⟩

/-- hc_receiver::mark_to_join (lines 1278-1341). -/
def mark_to_join (js : JoinState) (a b : Nat) : JoinState :=
  match alookup js.idx a, alookup js.idx b with
  | none, none =>
    { sets := js.sets ++ [(js.fresh, insert b {a})]
      idx := aset (aset js.idx a js.fresh) b js.fresh
      fresh := js.fresh + 1 }
  | none, some ly =>
    { js with sets := amod js.sets ly ∅ (insert a), idx := aset js.idx a ly }
  | some lx, none =>
    { js with sets := amod js.sets lx ∅ (insert b), idx := aset js.idx b lx }
  | some lx, some ly =>
    if lx = ly then js
    else
      let sy := (alookup js.sets ly).getD ∅
      { sets := aerase (amod js.sets lx ∅ (fun s => s ∪ sy)) ly
        idx := (sy.sort (· ≤ ·)).foldl (fun m i => aset m i lx) js.idx
        fresh := js.fresh }

/-- The buffering step of add_single_pair (local vs. instance, lines
1256-1268): when the child path is already connected to another cluster the
join is only recorded in the join-set state; otherwise an edge is added. -/
def local_promote (cc : connected_clusters) (js : JoinState) (c1id : Nat)
    (k2 : ClusterInstance) : connected_clusters × JoinState :=
  let other := cc.find_cluster_with_connection k2
  if 0 < other then (cc, mark_to_join js other c1id)
  else (cc.add_connection c1id k2, js)

/-- hc_receiver::join_superclusters (lines 945-961): for every set, every later
member is joined into the first member (std::set iteration is ascending). -/
def join_superclusters (js : JoinState) (cc : connected_clusters) :
    Option connected_clusters :=
  js.sets.foldlM
    (fun acc p =>
      match p.2.sort (· ≤ ·) with
      | [] => some acc
      | c :: rest => rest.foldlM (fun a2 c2 => a2.join_cluster_with c c2) acc)
    cc

/-- The list of (target, absorbed) pairs join_superclusters processes, in
order. -/
def supersJoinPairs (js : JoinState) : List (Nat × Nat) :=
  js.sets.flatMap (fun p =>
    match p.2.sort (· ≤ ·) with
    | [] => []
    | c :: rest => rest.map (fun c2 => (c, c2)))

/-- Folding a pair list through connected_clusters::join_cluster_with. -/
def joinPairs (l : List (Nat × Nat)) (cc : connected_clusters) :
    Option connected_clusters :=
  l.foldlM (fun a2 pr => a2.join_cluster_with pr.1 pr.2) cc

/-! ## hier_clusters::do_build, pass 2 (lines 1494-1523)

The walk over the bottom-up cell list, batching cells whose children are all
done and flushing the batch (invoking build_hier_connections for each cell of
the batch in order) when the invariant would break.  The state is the pair
(done, todo); the returned list is the order in which build_hier_connections
is invoked over the whole pass (the final flush included). -/

def pass2_step (children : Nat → List Nat) (called : List Nat)
    (st : List Nat × List Nat) (c : Nat) : List Nat × List Nat :=
  if c ∈ called then
    if (children c).all (fun d => decide (d ∈ st.1)) then (st.1, st.2 ++ [c])
    else (st.1 ++ st.2, [c])
  else st

def build_order (children : Nat → List Nat) (called : List Nat)
    (cells : List Nat) : List Nat :=
  let st := cells.foldl (pass2_step children called) ([], [])
  st.1 ++ st.2

/-! ## Helper lemmas on list slots -/

theorem lget_set_ne {α : Type} (l : List α) (n m : Nat) (a : α) (h : n ≠ m) :
    (l.set n a).get? m = l.get? m := by
  induction l generalizing n m with
  | nil => simp
  | cons x t ih =>
    cases n with
    | zero =>
      cases m with
      | zero => exact absurd rfl h
      | succ m2 => simp
    | succ n2 =>
      cases m with
      | zero => simp
      | succ m2 =>
        simp only [List.set, List.get?]
        exact ih n2 m2 (fun he => h (by rw [he]))

theorem lgetD_set {α : Type} (l : List α) (n k : Nat) (a d : α) :
    (l.set n a).getD k d = if n = k ∧ n < l.length then a else l.getD k d := by
  induction l generalizing n k with
  | nil => simp
  | cons x t ih =>
    cases n with
    | zero =>
      cases k with
      | zero => simp
      | succ k2 => simp
    | succ n2 =>
      cases k with
      | zero => simp
      | succ k2 =>
        simp only [List.set, List.getD_cons_succ, List.length_cons, ih]
        by_cases he : n2 = k2
        · subst he
          by_cases hl : n2 < t.length <;> simp [hl, Nat.succ_lt_succ_iff]
        · simp [he, fun h : n2 + 1 = k2 + 1 => he (Nat.succ_injective h)]

/-! ## Claim theorems -/

/-- Claim C7: Connectivity::interacts is true exactly when the second layer is
among the recorded neighbors of the first and the geometric interaction test
succeeds; the test is box interaction on world-space boxes when both shapes
are boxes and the polygon predicate otherwise; an unrecorded first layer or an
unconnected pair yields false. -/
theorem connectivity_interacts_spec (c : Connectivity) (pint : PInteract)
    (a : PolygonRef) (la : Nat) (b : PolygonRef) (lb : Nat) (trans : ITrans) :
    (c.interacts pint a la b lb trans = true ↔
      lb ∈ c.neighbors la ∧ interaction_test pint a b trans = true)
    ∧ (alookup c.connected la = none → c.interacts pint a la b lb trans = false)
    ∧ (lb ∉ c.neighbors la → c.interacts pint a la b lb trans = false)
    ∧ (a.obj.is_box = true → b.obj.is_box = true →
        interaction_test pint a b trans =
          boxInteract (a.obj.pbox.transformed a.ptrans)
            (b.obj.pbox.transformed (trans.comp b.ptrans)))
    ∧ (a.obj.is_box = false →
        interaction_test pint a b trans = pint a.obj a.ptrans b.obj (trans.comp b.ptrans)) := by
  refine ⟨?_, ?_, ?_, ?_, ?_⟩
  · unfold Connectivity.interacts Connectivity.neighbors
    cases h : alookup c.connected la with
    | none => simp
    | some s => by_cases hlb : lb ∈ s <;> simp [hlb]
  · intro h
    unfold Connectivity.interacts
    rw [h]
  · intro h
    unfold Connectivity.interacts
    unfold Connectivity.neighbors at h
    cases hl : alookup c.connected la with
    | none => rfl
    | some s =>
      rw [hl] at h
      simp only [Option.getD_some] at h
      simp [h]
  · intro ha hb
    unfold interaction_test
    simp [ha, hb]
  · intro ha
    unfold interaction_test
    simp [ha]

/-- Witness for C7 at a concrete connectivity: layer 7 is unrecorded, so
interacts returns false. -/
theorem connectivity_interacts_spec_witness :
    (Connectivity.emptyConn.connect2 0 1).interacts (fun _ _ _ _ => true)
      ⟨⟨true, ⟨0, 0, 1, 1⟩, 0⟩, ⟨0, 0⟩⟩ 7 ⟨⟨true, ⟨0, 0, 1, 1⟩, 0⟩, ⟨0, 0⟩⟩ 1 ⟨0, 0⟩ = false :=
  (connectivity_interacts_spec (Connectivity.emptyConn.connect2 0 1) (fun _ _ _ _ => true)
    ⟨⟨true, ⟨0, 0, 1, 1⟩, 0⟩, ⟨0, 0⟩⟩ 7 ⟨⟨true, ⟨0, 0, 1, 1⟩, 0⟩, ⟨0, 0⟩⟩ 1 ⟨0, 0⟩).2.1 (by decide)

/-- Claim C9: connected_clusters::join_cluster_with with equal arguments
returns before touching anything and leaves the whole state unchanged. -/
theorem join_cluster_with_self (cc : connected_clusters) (idv : Nat) :
    cc.join_cluster_with idv idv = some cc := by
  simp [connected_clusters.join_cluster_with]

/-- Claim C10: add_attr 0 is the identity; only strictly positive attribute
ids are inserted, so an attribute set free of 0 stays free of 0 under
add_attr, join_with and clear. -/
theorem add_attr_zero_spec (c o : local_cluster) (a : Nat) :
    c.add_attr 0 = c
    ∧ (0 ∉ c.attrs → 0 ∉ (c.add_attr a).attrs)
    ∧ (0 ∉ c.attrs → 0 ∉ o.attrs → 0 ∉ (c.join_with o).attrs)
    ∧ 0 ∉ c.clear.attrs := by
  refine ⟨?_, ?_, ?_, ?_⟩
  · simp [local_cluster.add_attr]
  · intro h
    unfold local_cluster.add_attr
    by_cases ha : 0 < a
    · simp [ha]
      exact ⟨fun h0 => absurd h0 (Nat.ne_of_lt ha), h⟩
    · simp [ha, h]
  · intro h1 h2
    simp [local_cluster.join_with, h1, h2]
  · simp [local_cluster.clear]

/-- Witness for C10 at a concrete cluster with attrs {5}. -/
theorem add_attr_zero_spec_witness :
    0 ∉ ((⟨1, [], {5}⟩ : local_cluster).add_attr 3).attrs :=
  (add_attr_zero_spec ⟨1, [], {5}⟩ ⟨2, [], ∅⟩ 3).2.1 (by decide)

/-- Claim C2 counterexample: cluster_by_id on id 0 hits tl_assert (id > 0) and
fails (modelled as none), contradicting "never fail ... including id 0". -/
theorem cluster_by_id_zero_asserts :
    local_clusters.emptyL.cluster_by_id 0 = none := rfl

/-- Claim C2 (amended): for every positive id past the backing store,
cluster_by_id returns the statically-owned empty cluster; connections of an
unrecorded id are the statically-owned empty list; clusters_per_cell of an
unrecorded cell is the statically-owned empty connected_clusters. -/
theorem empty_query_defaults (lc : local_clusters) (idv : Nat)
    (cc : connected_clusters) (hc : hier_clusters) (cx : Nat) :
    (idv ≠ 0 → lc.clusters.length < idv → lc.cluster_by_id idv = some empty_cluster)
    ∧ (alookup cc.conns idv = none → cc.connections_for idv = [])
    ∧ (alookup hc.per_cell cx = none →
        hc.clusters_per_cell cx = connected_clusters.emptyC) := by
  refine ⟨?_, ?_, ?_⟩
  · intro h0 hlen
    simp [local_clusters.cluster_by_id, h0, hlen]
  · intro h
    simp [connected_clusters.connections_for, h]
  · intro h
    simp [hier_clusters.clusters_per_cell, h]

/-- Witness for C2 (amended) at concrete states. -/
theorem empty_query_defaults_witness :
    local_clusters.emptyL.cluster_by_id 3 = some empty_cluster
    ∧ connected_clusters.emptyC.connections_for 2 = []
    ∧ (hier_clusters.mk []).clusters_per_cell 1 = connected_clusters.emptyC :=
  ⟨(empty_query_defaults local_clusters.emptyL 3 connected_clusters.emptyC
      (hier_clusters.mk []) 1).1 (by decide) (by decide),
   (empty_query_defaults local_clusters.emptyL 3 connected_clusters.emptyC
      (hier_clusters.mk []) 1).2.1 (by decide),
   (empty_query_defaults local_clusters.emptyL 3 connected_clusters.emptyC
      (hier_clusters.mk []) 1).2.2 (by decide)⟩

/-- Claim C8: remove_cluster and join_cluster_with clear slots in place and
never erase them: the slot count is unchanged, every slot other than the
removed / target / absorbed ones is untouched, and the id stored in every slot
(surviving clusters included) is unchanged. -/
theorem stable_ids_spec (lc : local_clusters) (idv with_id j k : Nat) :
    (lc.remove_cluster idv).clusters.length = lc.clusters.length
    ∧ (j + 1 ≠ idv → (lc.remove_cluster idv).clusters.get? j = lc.clusters.get? j)
    ∧ ((lc.remove_cluster idv).clusters.getD k empty_cluster).id
        = (lc.clusters.getD k empty_cluster).id
    ∧ (∀ lc2, lc.join_cluster_with idv with_id = some lc2 →
        lc2.clusters.length = lc.clusters.length
        ∧ (j + 1 ≠ idv → j + 1 ≠ with_id → lc2.clusters.get? j = lc.clusters.get? j)
        ∧ (lc2.clusters.getD k empty_cluster).id = (lc.clusters.getD k empty_cluster).id) := by
  refine ⟨?_, ?_, ?_, ?_⟩
  · unfold local_clusters.remove_cluster
    by_cases h : idv = 0 ∨ lc.clusters.length < idv <;> simp [h]
  · intro hj
    unfold local_clusters.remove_cluster
    by_cases h : idv = 0 ∨ lc.clusters.length < idv
    · simp [h]
    · have hne : idv - 1 ≠ j := by
        push_neg at h
        omega
      simp only [h, if_false]
      exact lget_set_ne _ _ _ _ hne
  · unfold local_clusters.remove_cluster
    by_cases h : idv = 0 ∨ lc.clusters.length < idv
    · simp [h]
    · simp only [h, if_false, lgetD_set]
      by_cases hk : idv - 1 = k ∧ idv - 1 < lc.clusters.length
      · have hkl : k < lc.clusters.length := hk.1 ▸ hk.2
        simp [hk, hkl, local_cluster.clear]
      · simp [hk]
  · intro lc2 hj2
    unfold local_clusters.join_cluster_with at hj2
    by_cases h0 : idv = 0
    · simp [h0] at hj2
    · by_cases h : with_id = 0 ∨ lc.clusters.length < with_id ∨ lc.clusters.length < idv
      · simp [h0, h] at hj2
        refine ⟨by rw [← hj2], fun _ _ => by rw [← hj2], by rw [← hj2]⟩
      · simp only [h0, if_false, h, Option.some.injEq] at hj2
        push_neg at h
        subst hj2
        refine ⟨by simp, ?_, ?_⟩
        · intro hji hjw
          have hne1 : idv - 1 ≠ j := by omega
          have hne2 : with_id - 1 ≠ j := by omega
          simp only []
          rw [lget_set_ne _ _ _ _ hne2, lget_set_ne _ _ _ _ hne1]
        · simp only [lgetD_set, List.length_set]
          by_cases hw : with_id - 1 = k ∧ with_id - 1 < lc.clusters.length
          · have hkl : k < lc.clusters.length := hw.1 ▸ hw.2
            simp [hw, hkl, local_cluster.clear]
          · simp only [hw, if_false]
            by_cases hi : idv - 1 = k ∧ idv - 1 < lc.clusters.length
            · have hkl : k < lc.clusters.length := hi.1 ▸ hi.2
              simp [hi, hkl, local_cluster.join_with]
            · simp [hi]

/-- Witness for C8 at a two-cluster store: joining cluster 1 with cluster 2
leaves slot counts, the untouched slot and every stored id unchanged. -/
theorem stable_ids_spec_witness :
    (local_clusters.mk [⟨1, [], ∅⟩, ⟨2, [], {4}⟩, ⟨3, [], ∅⟩] 0).join_cluster_with 1 2
        = some (local_clusters.mk
            [⟨1, [], {4}⟩, ⟨2, [], ∅⟩, ⟨3, [], ∅⟩] 0)
    ∧ ((local_clusters.mk [⟨1, [], ∅⟩, ⟨2, [], {4}⟩, ⟨3, [], ∅⟩] 0).remove_cluster 2).clusters.length = 3 := by
  constructor
  · have h := (stable_ids_spec (local_clusters.mk [⟨1, [], ∅⟩, ⟨2, [], {4}⟩, ⟨3, [], ∅⟩] 0) 1 2 2 0).2.2.2
    decide
  · exact (stable_ids_spec (local_clusters.mk [⟨1, [], ∅⟩, ⟨2, [], {4}⟩, ⟨3, [], ∅⟩] 0) 2 2 0 0).1

/-! ## Effect lemmas for connected_clusters operations -/

theorem connections_for_add (cc : connected_clusters) (idv j : Nat) (ci : ClusterInstance) :
    (cc.add_connection idv ci).connections_for j =
      if idv = j then cc.connections_for j ++ [ci] else cc.connections_for j := by
  unfold connected_clusters.add_connection connected_clusters.connections_for
  simp only [alookup_amod]
  by_cases h : idv = j <;> simp [h]

theorem find_add (cc : connected_clusters) (idv : Nat) (ci ci2 : ClusterInstance) :
    (cc.add_connection idv ci).find_cluster_with_connection ci2 =
      if ci = ci2 then idv else cc.find_cluster_with_connection ci2 := by
  unfold connected_clusters.add_connection connected_clusters.find_cluster_with_connection
  simp only [alookup_aset]
  by_cases h : ci = ci2 <;> simp [h]


theorem join_local_some (lc : local_clusters) (idv with_id : Nat) (h0 : idv ≠ 0) :
    ∃ lc2, lc.join_cluster_with idv with_id = some lc2
      ∧ lc2.clusters.length = lc.clusters.length := by
  unfold local_clusters.join_cluster_with
  rw [if_neg h0]
  by_cases h : with_id = 0 ∨ lc.clusters.length < with_id ∨ lc.clusters.length < idv
  · rw [if_pos h]
    exact ⟨lc, rfl, rfl⟩
  · rw [if_neg h]
    exact ⟨_, rfl, by simp⟩

theorem join_cc_spec (cc : connected_clusters) (idv with_id : Nat)
    (h0 : idv ≠ 0) (hne : idv ≠ with_id) :
    ∃ cc2, cc.join_cluster_with idv with_id = some cc2
      ∧ (∀ j, cc2.connections_for j =
          if with_id = j then []
          else if idv = j then cc.connections_for j ++ cc.connections_for with_id
          else cc.connections_for j)
      ∧ (∀ ci, cc2.find_cluster_with_connection ci =
          if ci ∈ cc.connections_for with_id then idv
          else cc.find_cluster_with_connection ci)
      ∧ (∀ ci, alookup cc2.rev ci =
          if ci ∈ cc.connections_for with_id then some idv
          else alookup cc.rev ci)
      ∧ cc2.base.clusters.length = cc.base.clusters.length := by
  obtain ⟨b2, hb2, hlen⟩ := join_local_some cc.base idv with_id h0
  unfold connected_clusters.join_cluster_with
  rw [if_neg hne, hb2]
  simp only [Option.map_some']
  refine ⟨_, rfl, ?_, ?_, ?_, hlen⟩
  · intro j
    simp only [connected_clusters.connections_for, alookup_aerase, alookup_amod]
    by_cases hw : with_id = j
    · simp [hw]
    · by_cases hi : idv = j <;> simp [hw, hi, connected_clusters.connections_for]
  · intro ci
    simp only [connected_clusters.find_cluster_with_connection, alookup_foldl_aset]
    by_cases hm : ci ∈ cc.connections_for with_id <;> simp [hm]
  · intro ci
    show alookup ((cc.connections_for with_id).foldl (fun r c => aset r c idv) cc.rev) ci = _
    rw [alookup_foldl_aset]

theorem remove_cluster_clears (lc : local_clusters) (idv : Nat) (h0 : idv ≠ 0)
    (hr : ¬ lc.clusters.length < idv) :
    ((lc.remove_cluster idv).clusters.getD (idv - 1) empty_cluster).shapes = [] := by
  have hlt : idv - 1 < lc.clusters.length := by omega
  unfold local_clusters.remove_cluster
  simp [h0, hr, lgetD_set, hlt, local_cluster.clear]

/-- Claim C1: the instance-to-instance promotion step of add_single_pair.
With x1, x2 the find_cluster_with_connection results for the two paths: both
zero creates a fresh dummy id (past the backing store) carrying exactly the
two new edges to k1 and k2; exactly one zero appends the missing edge to the
non-zero side's list; both non-zero and distinct joins them, keeping as target
a cluster with at least as many outgoing connections as the absorbed one
(swapping when needed), moving the absorbed edges to the target and clearing
the absorbed cluster in place. -/
theorem add_single_pair_promotion (cc : connected_clusters) (k1 k2 : ClusterInstance) :
    (cc.find_cluster_with_connection k1 = 0 → cc.find_cluster_with_connection k2 = 0 →
      ∃ cc2, promote_pair cc k1 k2 = some cc2
        ∧ cc2.connections_for cc.insert_dummy.1
            = cc.connections_for cc.insert_dummy.1 ++ [k1, k2]
        ∧ (∀ j, j ≠ cc.insert_dummy.1 → cc2.connections_for j = cc.connections_for j)
        ∧ cc2.find_cluster_with_connection k1 = cc.insert_dummy.1
        ∧ cc2.find_cluster_with_connection k2 = cc.insert_dummy.1
        ∧ cc.base.clusters.length < cc.insert_dummy.1)
    ∧ (cc.find_cluster_with_connection k1 = 0 → cc.find_cluster_with_connection k2 ≠ 0 →
      ∃ cc2, promote_pair cc k1 k2 = some cc2
        ∧ cc2.connections_for (cc.find_cluster_with_connection k2)
            = cc.connections_for (cc.find_cluster_with_connection k2) ++ [k1]
        ∧ ∀ j, j ≠ cc.find_cluster_with_connection k2 →
            cc2.connections_for j = cc.connections_for j)
    ∧ (cc.find_cluster_with_connection k1 ≠ 0 → cc.find_cluster_with_connection k2 = 0 →
      ∃ cc2, promote_pair cc k1 k2 = some cc2
        ∧ cc2.connections_for (cc.find_cluster_with_connection k1)
            = cc.connections_for (cc.find_cluster_with_connection k1) ++ [k2]
        ∧ ∀ j, j ≠ cc.find_cluster_with_connection k1 →
            cc2.connections_for j = cc.connections_for j)
    ∧ (cc.find_cluster_with_connection k1 ≠ 0 → cc.find_cluster_with_connection k2 ≠ 0 →
       cc.find_cluster_with_connection k1 ≠ cc.find_cluster_with_connection k2 →
      ∃ tgt ab cc2,
        ((tgt, ab) = (cc.find_cluster_with_connection k1, cc.find_cluster_with_connection k2)
          ∨ (tgt, ab) = (cc.find_cluster_with_connection k2, cc.find_cluster_with_connection k1))
        ∧ (cc.connections_for ab).length ≤ (cc.connections_for tgt).length
        ∧ promote_pair cc k1 k2 = some cc2
        ∧ cc2.connections_for tgt = cc.connections_for tgt ++ cc.connections_for ab
        ∧ cc2.connections_for ab = []
        ∧ (∀ j, j ≠ tgt → j ≠ ab → cc2.connections_for j = cc.connections_for j)
        ∧ (∀ ci ∈ cc.connections_for ab, cc2.find_cluster_with_connection ci = tgt)
        ∧ (¬ cc.base.clusters.length < ab →
            (cc2.base.clusters.getD (ab - 1) empty_cluster).shapes = [])) := by
  refine ⟨?_, ?_, ?_, ?_⟩
  · intro h1 h2
    refine ⟨(cc.insert_dummy.2.add_connection cc.insert_dummy.1 k1).add_connection
        cc.insert_dummy.1 k2, ?_, ?_, ?_, ?_, ?_, ?_⟩
    · simp only [promote_pair]
      rw [if_pos h1, if_pos h2]
    · rw [connections_for_add, connections_for_add]
      simp [connected_clusters.insert_dummy, connected_clusters.connections_for]
    · intro j hj
      rw [connections_for_add, connections_for_add]
      rw [if_neg (Ne.symm hj), if_neg (Ne.symm hj)]
      rfl
    · rw [find_add]
      by_cases hk : k2 = k1
      · simp [hk]
      · rw [if_neg hk, find_add, if_pos rfl]
    · rw [find_add, if_pos rfl]
    · simp [connected_clusters.insert_dummy, local_clusters.insert_dummy]
      omega
  · intro h1 h2
    refine ⟨cc.add_connection (cc.find_cluster_with_connection k2) k1, ?_, ?_, ?_⟩
    · simp only [promote_pair]
      rw [if_pos h1, if_neg h2]
    · rw [connections_for_add, if_pos rfl]
    · intro j hj
      rw [connections_for_add, if_neg (Ne.symm hj)]
  · intro h1 h2
    refine ⟨cc.add_connection (cc.find_cluster_with_connection k1) k2, ?_, ?_, ?_⟩
    · simp only [promote_pair]
      rw [if_neg h1, if_pos h2]
    · rw [connections_for_add, if_pos rfl]
    · intro j hj
      rw [connections_for_add, if_neg (Ne.symm hj)]
  · intro h1 h2 hne
    by_cases hlt : (cc.connections_for (cc.find_cluster_with_connection k1)).length
        < (cc.connections_for (cc.find_cluster_with_connection k2)).length
    · obtain ⟨cc2, hj, hconn, hfind, _, hlen⟩ :=
        join_cc_spec cc (cc.find_cluster_with_connection k2)
          (cc.find_cluster_with_connection k1) h2 (Ne.symm hne)
      refine ⟨cc.find_cluster_with_connection k2, cc.find_cluster_with_connection k1,
        cc2.remove_cluster (cc.find_cluster_with_connection k1),
        Or.inr rfl, Nat.le_of_lt hlt, ?_, ?_, ?_, ?_, ?_, ?_⟩
      · simp only [promote_pair]
        rw [if_neg h1, if_neg h2, if_pos hne, if_pos hlt, if_pos hlt, hj]
        rfl
      · show cc2.connections_for _ = _
        rw [hconn, if_neg hne, if_pos rfl]
      · show cc2.connections_for _ = _
        rw [hconn, if_pos rfl]
      · intro j hjt hja
        show cc2.connections_for j = _
        rw [hconn, if_neg (fun h => hja h.symm), if_neg (fun h => hjt h.symm)]
      · intro ci hci
        show cc2.find_cluster_with_connection ci = _
        rw [hfind, if_pos hci]
      · intro hr
        show ((cc2.base.remove_cluster _).clusters.getD _ empty_cluster).shapes = []
        exact remove_cluster_clears cc2.base _ h1 (by rw [hlen]; exact hr)
    · obtain ⟨cc2, hj, hconn, hfind, _, hlen⟩ :=
        join_cc_spec cc (cc.find_cluster_with_connection k1)
          (cc.find_cluster_with_connection k2) h1 hne
      refine ⟨cc.find_cluster_with_connection k1, cc.find_cluster_with_connection k2,
        cc2.remove_cluster (cc.find_cluster_with_connection k2),
        Or.inl rfl, Nat.le_of_not_lt hlt, ?_, ?_, ?_, ?_, ?_, ?_⟩
      · simp only [promote_pair]
        rw [if_neg h1, if_neg h2, if_pos hne, if_neg hlt, if_neg hlt, hj]
        rfl
      · show cc2.connections_for _ = _
        rw [hconn, if_neg (Ne.symm hne), if_pos rfl]
      · show cc2.connections_for _ = _
        rw [hconn, if_pos rfl]
      · intro j hjt hja
        show cc2.connections_for j = _
        rw [hconn, if_neg (fun h => hja h.symm), if_neg (fun h => hjt h.symm)]
      · intro ci hci
        show cc2.find_cluster_with_connection ci = _
        rw [hfind, if_pos hci]
      · intro hr
        show ((cc2.base.remove_cluster _).clusters.getD _ empty_cluster).shapes = []
        exact remove_cluster_clears cc2.base _ h2 (by rw [hlen]; exact hr)

/-- Witness for C1: both lookups are 0 on the empty state, so a dummy with the
two edges is created. -/
theorem add_single_pair_promotion_witness :
    ∃ cc2, promote_pair connected_clusters.emptyC ⟨1, (0, 0)⟩ ⟨2, (0, 0)⟩ = some cc2
      ∧ cc2.connections_for connected_clusters.emptyC.insert_dummy.1
          = connected_clusters.emptyC.connections_for connected_clusters.emptyC.insert_dummy.1
            ++ [⟨1, (0, 0)⟩, ⟨2, (0, 0)⟩]
      ∧ (∀ j, j ≠ connected_clusters.emptyC.insert_dummy.1 →
          cc2.connections_for j = connected_clusters.emptyC.connections_for j)
      ∧ cc2.find_cluster_with_connection ⟨1, (0, 0)⟩ = connected_clusters.emptyC.insert_dummy.1
      ∧ cc2.find_cluster_with_connection ⟨2, (0, 0)⟩ = connected_clusters.emptyC.insert_dummy.1
      ∧ connected_clusters.emptyC.base.clusters.length
          < connected_clusters.emptyC.insert_dummy.1 :=
  (add_single_pair_promotion connected_clusters.emptyC ⟨1, (0, 0)⟩ ⟨2, (0, 0)⟩).1
    (by decide) (by decide)

/-! ## Split properties (claim C6) -/

theorem length_filter_partition {α : Type} (l : List α) (p : α → Bool) :
    (l.filter p).length + (l.filter (fun x => ! p x)).length = l.length := by
  induction l with
  | nil => simp
  | cons x t ih =>
    by_cases h : p x <;> simp [h, ih] <;> omega

/-- Multiset of all shapes of a fragment list. -/
def shapesMS (l : List local_cluster) : Multiset (Nat × PolygonRef) :=
  (l.map (fun f => (f.shapes : Multiset (Nat × PolygonRef)))).sum

theorem shapesMS_nil : shapesMS [] = 0 := rfl

theorem shapesMS_append (l1 l2 : List local_cluster) :
    shapesMS (l1 ++ l2) = shapesMS l1 + shapesMS l2 := by
  simp [shapesMS]

theorem split_frag_ids (r : Rat) :
    ∀ (n : Nat) (cl : local_cluster), ∀ f ∈ splitAux r n cl, f.id = cl.id ∧ f.attrs = ∅ := by
  intro n
  induction n with
  | zero =>
    intro cl f hf
    simp [splitAux] at hf
  | succ n ih =>
    intro cl f hf
    simp only [splitAux] at hf
    split at hf
    · simp at hf
    · split at hf
      · simp at hf
      · simp only [List.mem_append] at hf
        rcases hf with ((hf | hf) | hf) | hf
        · exact ⟨(ih _ f hf).1, (ih _ f hf).2⟩
        · exact ⟨(ih _ f hf).1, (ih _ f hf).2⟩
        · split at hf
          · simp at hf
            subst hf
            exact ⟨rfl, rfl⟩
          · simp at hf
        · split at hf
          · simp at hf
            subst hf
            exact ⟨rfl, rfl⟩
          · simp at hf

theorem coe_filter_partition {α : Type} (l : List α) (p : α → Bool) :
    ((l.filter p : List α) : Multiset α) + ((l.filter (fun x => ! p x) : List α) : Multiset α)
      = (l : Multiset α) := by
  induction l with
  | nil => simp
  | cons x t ih =>
    by_cases h : p x
    · simp only [List.filter_cons, h, if_true, Bool.not_true, Bool.false_eq_true, if_false]
      rw [← Multiset.cons_coe, ← Multiset.cons_coe, Multiset.cons_add, ih]
    · simp only [List.filter_cons, h, Bool.false_eq_true, if_false, Bool.not_false, if_true]
      rw [← Multiset.cons_coe, ← Multiset.cons_coe, Multiset.add_cons, ih]

theorem split_shapes_ms (r : Rat) :
    ∀ (n : Nat) (cl : local_cluster), cl.shapes.length ≤ n → splitAux r n cl ≠ [] →
      shapesMS (splitAux r n cl) = (cl.shapes : Multiset (Nat × PolygonRef)) := by
  intro n
  induction n with
  | zero =>
    intro cl hlen hne
    simp [splitAux] at hne
  | succ n ih =>
    intro cl hlen hne
    by_cases hr : cl.area_ratio < r
    · rw [splitAux, if_pos hr] at hne
      exact absurd rfl hne
    · by_cases hz : (split_a cl).size = 0 ∨ (split_b cl).size = 0
      · rw [splitAux, if_neg hr, if_pos hz] at hne
        exact absurd rfl hne
      · push_neg at hz
        have hab : (split_a cl).shapes.length + (split_b cl).shapes.length
            = cl.shapes.length :=
          length_filter_partition cl.shapes (fun p => splitGoesLeft cl.bbox p.2)
        have hza : (split_a cl).shapes.length ≠ 0 := hz.1
        have hzb : (split_b cl).shapes.length ≠ 0 := hz.2
        have hla : (split_a cl).shapes.length ≤ n := by omega
        have hlb : (split_b cl).shapes.length ≤ n := by omega
        rw [splitAux, if_neg hr, if_neg (by push_neg; exact hz)]
        rw [shapesMS_append, shapesMS_append, shapesMS_append]
        have hA : shapesMS (splitAux r n (split_a cl))
            + shapesMS (if splitAux r n (split_a cl) = [] then [split_a cl] else [])
            = ((split_a cl).shapes : Multiset (Nat × PolygonRef)) := by
          by_cases he : splitAux r n (split_a cl) = []
          · rw [he, if_pos rfl]
            simp [shapesMS]
          · rw [if_neg he, ih _ hla he]
            simp [shapesMS]
        have hB : shapesMS (splitAux r n (split_b cl))
            + shapesMS (if splitAux r n (split_b cl) = [] then [split_b cl] else [])
            = ((split_b cl).shapes : Multiset (Nat × PolygonRef)) := by
          by_cases he : splitAux r n (split_b cl) = []
          · rw [he, if_pos rfl]
            simp [shapesMS]
          · rw [if_neg he, ih _ hlb he]
            simp [shapesMS]
        rw [add_assoc, add_add_add_comm, hA, hB]
        exact coe_filter_partition cl.shapes (fun p => splitGoesLeft cl.bbox p.2)

theorem foldl_join_with (l : List local_cluster) (c : local_cluster) :
    ((l.foldl local_cluster.join_with c).shapes : Multiset (Nat × PolygonRef))
        = (c.shapes : Multiset (Nat × PolygonRef)) + shapesMS l
    ∧ (l.foldl local_cluster.join_with c).id = c.id
    ∧ ((∀ x ∈ l, x.attrs = ∅) → (l.foldl local_cluster.join_with c).attrs = c.attrs) := by
  induction l generalizing c with
  | nil => simp [shapesMS]
  | cons x t ih =>
    refine ⟨?_, ?_, ?_⟩
    · show ((t.foldl local_cluster.join_with (c.join_with x)).shapes : Multiset (Nat × PolygonRef)) = _
      rw [(ih (c.join_with x)).1]
      show (((c.shapes ++ x.shapes : List (Nat × PolygonRef)) : Multiset (Nat × PolygonRef))
          + shapesMS t) = _
      rw [← Multiset.coe_add, add_assoc]
      simp [shapesMS]
    · show (t.foldl local_cluster.join_with (c.join_with x)).id = c.id
      rw [(ih (c.join_with x)).2.1]
      rfl
    · intro hall
      show (t.foldl local_cluster.join_with (c.join_with x)).attrs = c.attrs
      rw [(ih (c.join_with x)).2.2 (fun y hy => hall y (List.mem_cons_of_mem x hy))]
      have hx : x.attrs = ∅ := hall x (List.mem_cons_self x t)
      simp [local_cluster.join_with, hx]

/-- The concrete split example: two unit-ish boxes far apart on layer 0,
attrs {5}; the area ratio is 204/8 which exceeds 10, so one split happens. -/
def splitExample : local_cluster :=
  ⟨1, [(0, ⟨⟨true, ⟨0, 0, 2, 2⟩, 0⟩, ⟨0, 0⟩⟩), (0, ⟨⟨true, ⟨100, 0, 102, 2⟩, 0⟩, ⟨0, 0⟩⟩)], {5}⟩

/-- Claim C6 counterexample: the cluster splits, every fragment keeps the id,
but the reassembled attribute set is empty, not the original {5} — attrs are
not propagated to split fragments. -/
theorem split_attrs_counterexample :
    splitExample.split 10 ≠ []
    ∧ (reassemble (splitExample.split 10)).attrs ≠ splitExample.attrs
    ∧ (∀ f ∈ splitExample.split 10, f.id = splitExample.id) := by
  decide

/-- Claim C6 (amended): when a split happens, reassembling the emitted
fragments restores the original shape multiset (per layer, since shapes carry
their layer) and the original id; every fragment keeps the original id; but
the fragments carry empty attribute sets, so the reassembled attrs are empty
rather than the original attrs. -/
theorem split_reassemble (cl : local_cluster) (r : Rat) :
    (cl.split r ≠ [] →
      ((reassemble (cl.split r)).shapes : Multiset (Nat × PolygonRef))
          = (cl.shapes : Multiset (Nat × PolygonRef))
      ∧ (reassemble (cl.split r)).id = cl.id
      ∧ (reassemble (cl.split r)).attrs = ∅)
    ∧ (∀ f ∈ cl.split r, f.id = cl.id ∧ f.attrs = ∅) := by
  constructor
  · intro hne
    have hms := split_shapes_ms r cl.shapes.length cl (le_refl _) hne
    have hids := split_frag_ids r cl.shapes.length cl
    unfold local_cluster.split at hne hms ⊢
    obtain ⟨f, rest, hfr⟩ : ∃ f rest, splitAux r cl.shapes.length cl = f :: rest := by
      cases h : splitAux r cl.shapes.length cl with
      | nil => exact absurd h hne
      | cons f rest => exact ⟨f, rest, rfl⟩
    rw [hfr] at hms hids ⊢
    unfold reassemble
    obtain ⟨hsh, hid, hat⟩ := foldl_join_with rest f
    refine ⟨?_, ?_, ?_⟩
    · rw [hsh, ← hms]
      simp [shapesMS]
    · rw [hid]
      exact (hids f (List.mem_cons_self f rest)).1
    · rw [hat (fun y hy => (hids y (List.mem_cons_of_mem f hy)).2)]
      exact (hids f (List.mem_cons_self f rest)).2
  · intro f hf
    exact split_frag_ids r cl.shapes.length cl f hf

/-- Witness for C6 (amended) at the concrete split example. -/
theorem split_reassemble_witness :
    ((reassemble (splitExample.split 10)).shapes : Multiset (Nat × PolygonRef))
        = (splitExample.shapes : Multiset (Nat × PolygonRef))
    ∧ (reassemble (splitExample.split 10)).id = splitExample.id
    ∧ (reassemble (splitExample.split 10)).attrs = ∅ :=
  (split_reassemble splitExample 10).1 (by decide)

/-! ## The connections / revConnections inverse invariant (claim C3) -/

/-- States reachable by arbitrary add_connection / join_cluster_with calls
(the letter of the claim). -/
inductive ReachAny : connected_clusters → Prop
  | empty : ReachAny connected_clusters.emptyC
  | add {cc : connected_clusters} {idv : Nat} {ci : ClusterInstance} :
      ReachAny cc → ReachAny (cc.add_connection idv ci)
  | join {cc cc2 : connected_clusters} {idv w : Nat} :
      ReachAny cc → cc.join_cluster_with idv w = some cc2 → ReachAny cc2

/-- States reachable when add_connection is used as the engine uses it: with a
non-zero cluster id and only for an instance that no cluster is connected to
yet (the engine always checks find_cluster_with_connection first). -/
inductive ReachFresh : connected_clusters → Prop
  | empty : ReachFresh connected_clusters.emptyC
  | add {cc : connected_clusters} {idv : Nat} {ci : ClusterInstance} :
      ReachFresh cc → idv ≠ 0 → cc.find_cluster_with_connection ci = 0 →
      ReachFresh (cc.add_connection idv ci)
  | join {cc cc2 : connected_clusters} {idv w : Nat} :
      ReachFresh cc → cc.join_cluster_with idv w = some cc2 → ReachFresh cc2

/-- The exact-inverse invariant of connections and revConnections. -/
def InvCC (cc : connected_clusters) : Prop :=
  (∀ ci idv, idv ≠ 0 →
    (cc.find_cluster_with_connection ci = idv ↔ ci ∈ cc.connections_for idv))
  ∧ cc.connections_for 0 = []
  ∧ ∀ ci, alookup cc.rev ci ≠ some 0

theorem join_cc_cases (cc cc2 : connected_clusters) (idv w : Nat)
    (h : cc.join_cluster_with idv w = some cc2) :
    (idv = w ∧ cc2 = cc) ∨
    (idv ≠ w ∧ idv ≠ 0
      ∧ (∀ j, cc2.connections_for j =
          if w = j then []
          else if idv = j then cc.connections_for j ++ cc.connections_for w
          else cc.connections_for j)
      ∧ (∀ ci, cc2.find_cluster_with_connection ci =
          if ci ∈ cc.connections_for w then idv else cc.find_cluster_with_connection ci)
      ∧ (∀ ci, alookup cc2.rev ci =
          if ci ∈ cc.connections_for w then some idv else alookup cc.rev ci)) := by
  by_cases he : idv = w
  · left
    refine ⟨he, ?_⟩
    unfold connected_clusters.join_cluster_with at h
    rw [if_pos he] at h
    exact (Option.some.injEq _ _ ▸ h).symm
  · right
    have h0 : idv ≠ 0 := by
      intro h0
      subst h0
      unfold connected_clusters.join_cluster_with at h
      rw [if_neg he] at h
      unfold local_clusters.join_cluster_with at h
      simp at h
    obtain ⟨cc2x, hj, hconn, hfind, hrev, _⟩ := join_cc_spec cc idv w h0 he
    rw [hj, Option.some.injEq] at h
    subst h
    exact ⟨he, h0, hconn, hfind, hrev⟩

theorem invcc_empty : InvCC connected_clusters.emptyC := by
  refine ⟨?_, rfl, ?_⟩
  · intro ci idv h0
    constructor
    · intro h
      exact absurd h.symm h0
    · intro h
      simp [connected_clusters.connections_for, connected_clusters.emptyC] at h
  · intro ci
    simp [connected_clusters.emptyC]

theorem invcc_add (cc : connected_clusters) (idv0 : Nat) (ci0 : ClusterInstance)
    (hinv : InvCC cc) (h0 : idv0 ≠ 0) (hf : cc.find_cluster_with_connection ci0 = 0) :
    InvCC (cc.add_connection idv0 ci0) := by
  obtain ⟨hiff, hzero, hrev0⟩ := hinv
  refine ⟨?_, ?_, ?_⟩
  · intro ci idv hne
    rw [find_add, connections_for_add]
    by_cases hc : ci0 = ci
    · subst hc
      rw [if_pos rfl]
      by_cases hi : idv0 = idv
      · subst hi
        simp
      · rw [if_neg hi]
        constructor
        · intro h
          exact absurd h hi
        · intro h
          exact absurd ((hiff ci0 idv hne).mpr h) (by rw [hf]; exact Ne.symm hne)
    · rw [if_neg hc]
      by_cases hi : idv0 = idv
      · subst hi
        rw [if_pos rfl]
        rw [hiff ci idv0 hne]
        simp [hc, Ne.symm hc]
      · rw [if_neg hi]
        exact hiff ci idv hne
  · rw [connections_for_add, if_neg h0]
    exact hzero
  · intro ci
    show alookup (aset cc.rev ci0 idv0) ci ≠ some 0
    rw [alookup_aset]
    by_cases hc : ci0 = ci
    · simp [hc, h0]
    · rw [if_neg hc]
      exact hrev0 ci

theorem invcc_join (cc cc2 : connected_clusters) (idv w : Nat)
    (hinv : InvCC cc) (h : cc.join_cluster_with idv w = some cc2) : InvCC cc2 := by
  obtain ⟨hiff, hzero, hrev0⟩ := hinv
  rcases join_cc_cases cc cc2 idv w h with ⟨_, rfl⟩ | ⟨hne, h0, hconn, hfind, hrev⟩
  · exact ⟨hiff, hzero, hrev0⟩
  · refine ⟨?_, ?_, ?_⟩
    · intro ci j hj
      rw [hfind, hconn]
      by_cases hm : ci ∈ cc.connections_for w
      · have hw0 : w ≠ 0 := by
          intro hw
          rw [hw, hzero] at hm
          exact absurd hm (List.not_mem_nil ci)
        have hfw : cc.find_cluster_with_connection ci = w := (hiff ci w hw0).mpr hm
        rw [if_pos hm]
        by_cases hwj : w = j
        · subst hwj
          rw [if_pos rfl]
          simp [hne]
        · rw [if_neg hwj]
          by_cases hij : idv = j
          · subst hij
            simp [hm]
          · rw [if_neg hij]
            constructor
            · intro hh
              exact absurd hh hij
            · intro hh
              exact absurd ((hiff ci j hj).mpr hh) (by rw [hfw]; exact hwj)
      · rw [if_neg hm]
        by_cases hwj : w = j
        · subst hwj
          rw [if_pos rfl]
          constructor
          · intro hh
            exact absurd ((hiff ci w hj).mp hh) hm
          · intro hh
            exact absurd hh (List.not_mem_nil ci)
        · rw [if_neg hwj]
          by_cases hij : idv = j
          · subst hij
            rw [if_pos rfl, List.mem_append]
            rw [hiff ci idv hj]
            simp [hm]
          · rw [if_neg hij]
            exact hiff ci j hj
    · rw [hconn]
      by_cases hw : w = 0
      · rw [if_pos hw]
      · rw [if_neg hw, if_neg h0]
        exact hzero
    · intro ci
      rw [hrev]
      by_cases hm : ci ∈ cc.connections_for w
      · simp [hm, h0]
      · rw [if_neg hm]
        exact hrev0 ci

theorem invcc_reach (cc : connected_clusters) (h : ReachFresh cc) : InvCC cc := by
  induction h with
  | empty => exact invcc_empty
  | add hr h0 hf ih => exact invcc_add _ _ _ ih h0 hf
  | join hr hj ih => exact invcc_join _ _ _ _ ih hj

/-- Claim C3 counterexample: adding the same instance to two different
clusters (a sequence of addConnection calls, as the claim quantifies) breaks
the exact-inverse property: the instance occurs in connections[1] but
findClusterWithConnection returns 2. -/
theorem rev_inverse_claim_fails :
    ReachAny ((connected_clusters.emptyC.add_connection 1 ⟨1, (0, 0)⟩).add_connection
        2 ⟨1, (0, 0)⟩)
    ∧ (⟨1, (0, 0)⟩ : ClusterInstance)
        ∈ ((connected_clusters.emptyC.add_connection 1 ⟨1, (0, 0)⟩).add_connection
            2 ⟨1, (0, 0)⟩).connections_for 1
    ∧ ((connected_clusters.emptyC.add_connection 1 ⟨1, (0, 0)⟩).add_connection
        2 ⟨1, (0, 0)⟩).find_cluster_with_connection ⟨1, (0, 0)⟩ ≠ 1 :=
  ⟨ReachAny.add (ReachAny.add ReachAny.empty), by decide, by decide⟩

/-- Claim C3 (amended): for states reachable when every addConnection uses a
non-zero id and an instance not yet connected anywhere (which is how the
stitching engine calls it, guarded by findClusterWithConnection), the reverse
map is the exact inverse of connections: find returns id iff the instance is
in the list of id, and 0 only when the instance is in no list; moreover every
successful joinClusterWith (id, with_id) with distinct ids moves the whole
edge list of with_id into the list of id, repoints the moved reverse entries
to id, and erases the list of with_id. -/
theorem rev_connections_exact_inverse (cc : connected_clusters) (h : ReachFresh cc) :
    ((∀ ci idv, idv ≠ 0 →
        (cc.find_cluster_with_connection ci = idv ↔ ci ∈ cc.connections_for idv))
      ∧ (∀ ci, cc.find_cluster_with_connection ci = 0 →
          ∀ idv, ci ∉ cc.connections_for idv))
    ∧ (∀ idv w cc2, idv ≠ w → cc.join_cluster_with idv w = some cc2 →
        cc2.connections_for idv = cc.connections_for idv ++ cc.connections_for w
        ∧ cc2.connections_for w = []
        ∧ ∀ ci ∈ cc.connections_for w, cc2.find_cluster_with_connection ci = idv) := by
  obtain ⟨hiff, hzero, hrev0⟩ := invcc_reach cc h
  constructor
  · refine ⟨hiff, ?_⟩
    intro ci hf idv hmem
    by_cases h0 : idv = 0
    · rw [h0, hzero] at hmem
      exact absurd hmem (List.not_mem_nil ci)
    · exact absurd ((hiff ci idv h0).mpr hmem) (by rw [hf]; exact Ne.symm h0)
  · intro idv w cc2 hne hj
    rcases join_cc_cases cc cc2 idv w hj with ⟨he, _⟩ | ⟨_, _, hconn, hfind, _⟩
    · exact absurd he hne
    · refine ⟨?_, ?_, ?_⟩
      · rw [hconn, if_neg (Ne.symm hne), if_pos rfl]
      · rw [hconn, if_pos rfl]
      · intro ci hci
        rw [hfind, if_pos hci]

/-- Witness for C3 (amended) at a concrete reachable state. -/
theorem rev_connections_exact_inverse_witness :
    (connected_clusters.emptyC.add_connection 1 ⟨1, (0, 0)⟩).find_cluster_with_connection
        ⟨1, (0, 0)⟩ = 1
      ↔ (⟨1, (0, 0)⟩ : ClusterInstance)
        ∈ (connected_clusters.emptyC.add_connection 1 ⟨1, (0, 0)⟩).connections_for 1 :=
  ((rev_connections_exact_inverse (connected_clusters.emptyC.add_connection 1 ⟨1, (0, 0)⟩)
      (ReachFresh.add ReachFresh.empty (by decide) (by decide))).1.1 ⟨1, (0, 0)⟩ 1 (by decide))

/-! ## mark_to_join invariants (claim C4) -/

theorem alookup_some_mem_keys {α β : Type} [DecidableEq α] {l : List (α × β)} {k : α} {v : β}
    (h : alookup l k = some v) : k ∈ l.map Prod.fst := by
  induction l with
  | nil => simp at h
  | cons p t ih =>
    obtain ⟨k0, v0⟩ := p
    by_cases hk : k0 = k
    · simp [hk]
    · simp only [alookup_cons, hk, if_false] at h
      simp [ih h]

theorem alookup_append_some {α β : Type} [DecidableEq α] {l1 l2 : List (α × β)} {j : α} {x : β}
    (h : alookup l1 j = some x) : alookup (l1 ++ l2) j = some x := by
  induction l1 with
  | nil => simp at h
  | cons p t ih =>
    obtain ⟨k0, v0⟩ := p
    by_cases hk : k0 = j
    · simpa [hk] using h
    · simp only [alookup_cons, hk, if_false] at h
      simpa [hk] using ih h

theorem alookup_append_none {α β : Type} [DecidableEq α] {l1 : List (α × β)}
    (l2 : List (α × β)) {j : α} (h : alookup l1 j = none) :
    alookup (l1 ++ l2) j = alookup l2 j := by
  induction l1 with
  | nil => simp
  | cons p t ih =>
    obtain ⟨k0, v0⟩ := p
    by_cases hk : k0 = j
    · simp [hk] at h
    · simp only [alookup_cons, hk, if_false] at h
      simpa [hk] using ih h

theorem amod_map_fst {α β : Type} [DecidableEq α] {l : List (α × β)} {k : α} {v : β}
    (h : alookup l k = some v) (d : β) (f : β → β) :
    (amod l k d f).map Prod.fst = l.map Prod.fst := by
  induction l with
  | nil => simp at h
  | cons p t ih =>
    obtain ⟨k0, v0⟩ := p
    by_cases hk : k0 = k
    · simp [amod, hk]
    · simp only [alookup_cons, hk, if_false] at h
      simp [amod, hk, ih h]

theorem aerase_map_fst_sublist {α β : Type} [DecidableEq α] (l : List (α × β)) (k : α) :
    ((aerase l k).map Prod.fst).Sublist (l.map Prod.fst) :=
  List.Sublist.map Prod.fst (List.filter_sublist l)

/-- The invariant of the deferred join-set state: set labels are unique and
below the fresh counter, and the id map is exact — an id maps to a label iff
the labelled set contains it. -/
def JSInv (js : JoinState) : Prop :=
  (js.sets.map Prod.fst).Nodup
  ∧ (∀ l2 ∈ js.sets.map Prod.fst, l2 < js.fresh)
  ∧ ∀ i l2, alookup js.idx i = some l2 ↔ ∃ s, alookup js.sets l2 = some s ∧ i ∈ s

/-- States of the join-set structure reachable by mark_to_join calls. -/
inductive ReachJS : JoinState → Prop
  | empty : ReachJS JoinState.emptyJ
  | mark {js : JoinState} (a b : Nat) : ReachJS js → ReachJS (mark_to_join js a b)

theorem jsinv_mark (js : JoinState) (a b : Nat) (hinv : JSInv js) :
    JSInv (mark_to_join js a b)
    ∧ alookup (mark_to_join js a b).idx a = alookup (mark_to_join js a b).idx b
    ∧ alookup (mark_to_join js a b).idx a ≠ none := by
  obtain ⟨hnd, hlt, hex⟩ := hinv
  have hfresh_none : alookup js.sets js.fresh = none := by
    cases hf : alookup js.sets js.fresh with
    | none => rfl
    | some s => exact absurd (hlt _ (alookup_some_mem_keys hf)) (lt_irrefl js.fresh)
  cases hx : alookup js.idx a with
  | none =>
    cases hy : alookup js.idx b with
    | none =>
      simp only [mark_to_join, hx, hy]
      have hsets : ∀ l2, alookup (js.sets ++ [(js.fresh, insert b {a})]) l2
          = if l2 = js.fresh then some (insert b {a}) else alookup js.sets l2 := by
        intro l2
        by_cases hl : l2 = js.fresh
        · subst hl
          rw [alookup_append_none _ hfresh_none]
          simp
        · cases hs : alookup js.sets l2 with
          | none =>
            have hl2 : ¬ js.fresh = l2 := fun h => hl h.symm
            rw [alookup_append_none _ hs, if_neg hl]
            simp [hs, hl2]
          | some s => rw [alookup_append_some hs, if_neg hl]
      have hidx : ∀ i, alookup (aset (aset js.idx a js.fresh) b js.fresh) i
          = if i = b ∨ i = a then some js.fresh else alookup js.idx i := by
        intro i
        rw [alookup_aset, alookup_aset]
        by_cases hib : b = i
        · simp [hib]
        · have hib2 : ¬ i = b := fun h => hib h.symm
          by_cases hia : a = i
          · simp [hib, hib2, hia]
          · have hia2 : ¬ i = a := fun h => hia h.symm
            simp [hib, hib2, hia, hia2]
      refine ⟨⟨?_, ?_, ?_⟩, ?_, ?_⟩
      · rw [List.map_append, List.nodup_append]
        refine ⟨hnd, by simp, ?_⟩
        intro x hxm hx2
        simp only [List.map_cons, List.map_nil, List.mem_cons, List.not_mem_nil,
          or_false] at hx2
        subst hx2
        exact absurd (hlt _ hxm) (lt_irrefl _)
      · intro l2 hl2
        rw [List.map_append] at hl2
        rcases List.mem_append.mp hl2 with hl2 | hl2
        · exact Nat.lt_succ_of_lt (hlt _ hl2)
        · simp only [List.map_cons, List.map_nil, List.mem_cons, List.not_mem_nil,
            or_false] at hl2
          subst hl2
          exact Nat.lt_succ_self _
      · intro i l2
        simp only [hidx, hsets]
        by_cases hi : i = b ∨ i = a
        · rw [if_pos hi]
          constructor
          · intro h
            injection h with h
            subst h
            refine ⟨insert b {a}, by rw [if_pos rfl], ?_⟩
            rcases hi with h | h <;> subst h <;> simp
          · rintro ⟨s, hs, his⟩
            by_cases hl : l2 = js.fresh
            · rw [hl]
            · rw [if_neg hl] at hs
              have hmem := (hex i l2).mpr ⟨s, hs, his⟩
              rcases hi with h | h <;> subst h
              · rw [hy] at hmem
                cases hmem
              · rw [hx] at hmem
                cases hmem
        · rw [if_neg hi]
          constructor
          · intro h
            obtain ⟨s, hs, his⟩ := (hex i l2).mp h
            refine ⟨s, ?_, his⟩
            by_cases hl : l2 = js.fresh
            · subst hl
              rw [hfresh_none] at hs
              cases hs
            · rw [if_neg hl]
              exact hs
          · rintro ⟨s, hs, his⟩
            by_cases hl : l2 = js.fresh
            · subst hl
              rw [if_pos rfl] at hs
              injection hs with hs
              subst hs
              simp only [Finset.mem_insert, Finset.mem_singleton] at his
              exact absurd his hi
            · rw [if_neg hl] at hs
              exact (hex i l2).mpr ⟨s, hs, his⟩
      · rw [hidx, hidx]
        simp
      · rw [hidx]
        simp
    | some ly =>
      obtain ⟨sy, hsy, hbsy⟩ := (hex b ly).mp hy
      simp only [mark_to_join, hx, hy]
      have hsets : ∀ l2, alookup (amod js.sets ly ∅ (insert a)) l2
          = if ly = l2 then some (insert a sy) else alookup js.sets l2 := by
        intro l2
        rw [alookup_amod]
        by_cases hl : ly = l2
        · subst hl
          rw [if_pos rfl, if_pos rfl, hsy]
          rfl
        · rw [if_neg hl, if_neg hl]
      have hidx : ∀ i, alookup (aset js.idx a ly) i
          = if a = i then some ly else alookup js.idx i :=
        fun i => alookup_aset _ _ _ _
      refine ⟨⟨?_, ?_, ?_⟩, ?_, ?_⟩
      · rw [amod_map_fst hsy]
        exact hnd
      · intro l2 hl2
        rw [amod_map_fst hsy] at hl2
        exact hlt _ hl2
      · intro i l2
        simp only [hidx, hsets]
        by_cases hia : a = i
        · rw [if_pos hia]
          constructor
          · intro h
            injection h with h
            subst h
            subst hia
            exact ⟨insert a sy, by rw [if_pos rfl], by simp⟩
          · rintro ⟨s, hs, his⟩
            by_cases hl : ly = l2
            · rw [hl]
            · rw [if_neg hl] at hs
              subst hia
              have hmem := (hex a l2).mpr ⟨s, hs, his⟩
              rw [hx] at hmem
              cases hmem
        · rw [if_neg hia]
          constructor
          · intro h
            obtain ⟨s, hs, his⟩ := (hex i l2).mp h
            by_cases hl : ly = l2
            · subst hl
              rw [hsy] at hs
              injection hs with hs
              subst hs
              exact ⟨insert a sy, by rw [if_pos rfl], Finset.mem_insert_of_mem his⟩
            · exact ⟨s, by rw [if_neg hl]; exact hs, his⟩
          · rintro ⟨s, hs, his⟩
            by_cases hl : ly = l2
            · subst hl
              rw [if_pos rfl] at hs
              injection hs with hs
              subst hs
              have hisy : i ∈ sy := by
                rcases Finset.mem_insert.mp his with h | h
                · exact absurd h.symm hia
                · exact h
              exact (hex i ly).mpr ⟨sy, hsy, hisy⟩
            · rw [if_neg hl] at hs
              exact (hex i l2).mpr ⟨s, hs, his⟩
      · rw [hidx, hidx, if_pos rfl]
        by_cases hab : a = b
        · rw [if_pos hab]
        · rw [if_neg hab, hy]
      · rw [hidx, if_pos rfl]
        simp
  | some lx =>
    cases hy : alookup js.idx b with
    | none =>
      obtain ⟨sx, hsx, hasx⟩ := (hex a lx).mp hx
      simp only [mark_to_join, hx, hy]
      have hsets : ∀ l2, alookup (amod js.sets lx ∅ (insert b)) l2
          = if lx = l2 then some (insert b sx) else alookup js.sets l2 := by
        intro l2
        rw [alookup_amod]
        by_cases hl : lx = l2
        · subst hl
          rw [if_pos rfl, if_pos rfl, hsx]
          rfl
        · rw [if_neg hl, if_neg hl]
      have hidx : ∀ i, alookup (aset js.idx b lx) i
          = if b = i then some lx else alookup js.idx i :=
        fun i => alookup_aset _ _ _ _
      refine ⟨⟨?_, ?_, ?_⟩, ?_, ?_⟩
      · rw [amod_map_fst hsx]
        exact hnd
      · intro l2 hl2
        rw [amod_map_fst hsx] at hl2
        exact hlt _ hl2
      · intro i l2
        simp only [hidx, hsets]
        by_cases hib : b = i
        · rw [if_pos hib]
          constructor
          · intro h
            injection h with h
            subst h
            subst hib
            exact ⟨insert b sx, by rw [if_pos rfl], by simp⟩
          · rintro ⟨s, hs, his⟩
            by_cases hl : lx = l2
            · rw [hl]
            · rw [if_neg hl] at hs
              subst hib
              have hmem := (hex b l2).mpr ⟨s, hs, his⟩
              rw [hy] at hmem
              cases hmem
        · rw [if_neg hib]
          constructor
          · intro h
            obtain ⟨s, hs, his⟩ := (hex i l2).mp h
            by_cases hl : lx = l2
            · subst hl
              rw [hsx] at hs
              injection hs with hs
              subst hs
              exact ⟨insert b sx, by rw [if_pos rfl], Finset.mem_insert_of_mem his⟩
            · exact ⟨s, by rw [if_neg hl]; exact hs, his⟩
          · rintro ⟨s, hs, his⟩
            by_cases hl : lx = l2
            · subst hl
              rw [if_pos rfl] at hs
              injection hs with hs
              subst hs
              have hisx : i ∈ sx := by
                rcases Finset.mem_insert.mp his with h | h
                · exact absurd h.symm hib
                · exact h
              exact (hex i lx).mpr ⟨sx, hsx, hisx⟩
            · rw [if_neg hl] at hs
              exact (hex i l2).mpr ⟨s, hs, his⟩
      · rw [hidx, hidx, if_pos rfl]
        by_cases hab : b = a
        · rw [if_pos hab]
        · rw [if_neg hab, hx]
      · rw [hidx]
        by_cases hab : b = a
        · rw [if_pos hab]
          simp
        · rw [if_neg hab, hx]
          simp
    | some ly =>
      by_cases hxy : lx = ly
      · subst hxy
        have hjs : mark_to_join js a b = js := by
          simp [mark_to_join, hx, hy]
        rw [hjs]
        exact ⟨⟨hnd, hlt, hex⟩, by rw [hx, hy], by rw [hx]; simp⟩
      · obtain ⟨sx, hsx, hasx⟩ := (hex a lx).mp hx
        obtain ⟨sy, hsy, hbsy⟩ := (hex b ly).mp hy
        have hansy : a ∉ sy := by
          intro ha
          have := (hex a ly).mpr ⟨sy, hsy, ha⟩
          rw [hx] at this
          injection this with this
          exact hxy this
        simp only [mark_to_join, hx, hy, if_neg hxy]
        have hsyv : (alookup js.sets ly).getD ∅ = sy := by
          rw [hsy]
          rfl
        have hsets : ∀ l2,
            alookup (aerase (amod js.sets lx ∅ (fun s => s ∪ (alookup js.sets ly).getD ∅)) ly) l2
            = if ly = l2 then none
              else if lx = l2 then some (sx ∪ sy) else alookup js.sets l2 := by
          intro l2
          rw [alookup_aerase, alookup_amod]
          by_cases h1 : ly = l2
          · rw [if_pos h1, if_pos h1]
          · rw [if_neg h1, if_neg h1]
            by_cases h2 : lx = l2
            · rw [if_pos h2, if_pos h2, hsx, hsyv]
              rfl
            · rw [if_neg h2, if_neg h2]
        have hidx : ∀ i,
            alookup ((((alookup js.sets ly).getD ∅).sort (· ≤ ·)).foldl
              (fun m i2 => aset m i2 lx) js.idx) i
            = if i ∈ sy then some lx else alookup js.idx i := by
          intro i
          rw [alookup_foldl_aset, hsyv]
          by_cases hm : i ∈ sy
          · rw [if_pos ((Finset.mem_sort _).mpr hm), if_pos hm]
          · rw [if_neg (fun hh => hm ((Finset.mem_sort _).mp hh)), if_neg hm]
        refine ⟨⟨?_, ?_, ?_⟩, ?_, ?_⟩
        · exact ((aerase_map_fst_sublist _ _).trans
            ((amod_map_fst hsx _ _).symm ▸ List.Sublist.refl _)).nodup hnd
        · intro l2 hl2
          have hl3 := (aerase_map_fst_sublist _ ly).subset hl2
          rw [amod_map_fst hsx] at hl3
          exact hlt _ hl3
        · intro i l2
          simp only [hidx, hsets]
          by_cases hm : i ∈ sy
          · rw [if_pos hm]
            constructor
            · intro h
              injection h with h
              subst h
              refine ⟨sx ∪ sy, ?_, Finset.mem_union_right _ hm⟩
              rw [if_neg (fun h => hxy h.symm), if_pos rfl]
            · rintro ⟨s, hs, his⟩
              by_cases h1 : ly = l2
              · rw [if_pos h1] at hs
                cases hs
              · rw [if_neg h1] at hs
                by_cases h2 : lx = l2
                · rw [h2]
                · rw [if_neg h2] at hs
                  have hmem := (hex i l2).mpr ⟨s, hs, his⟩
                  have hmem2 := (hex i ly).mpr ⟨sy, hsy, hm⟩
                  rw [hmem2] at hmem
                  injection hmem with hmem
                  exact absurd hmem h1
          · rw [if_neg hm]
            constructor
            · intro h
              obtain ⟨s, hs, his⟩ := (hex i l2).mp h
              by_cases h1 : ly = l2
              · subst h1
                rw [hsy] at hs
                injection hs with hs
                subst hs
                exact absurd his hm
              · by_cases h2 : lx = l2
                · subst h2
                  rw [hsx] at hs
                  injection hs with hs
                  subst hs
                  exact ⟨sx ∪ sy, by rw [if_neg h1, if_pos rfl], Finset.mem_union_left _ his⟩
                · exact ⟨s, by rw [if_neg h1, if_neg h2]; exact hs, his⟩
            · rintro ⟨s, hs, his⟩
              by_cases h1 : ly = l2
              · rw [if_pos h1] at hs
                cases hs
              · rw [if_neg h1] at hs
                by_cases h2 : lx = l2
                · rw [if_pos h2] at hs
                  injection hs with hs
                  subst hs
                  rcases Finset.mem_union.mp his with hh | hh
                  · subst h2
                    exact (hex i lx).mpr ⟨sx, hsx, hh⟩
                  · exact absurd hh hm
                · rw [if_neg h2] at hs
                  exact (hex i l2).mpr ⟨s, hs, his⟩
        · rw [hidx, hidx, if_neg hansy, if_pos hbsy]
          exact hx
        · rw [hidx, if_neg hansy, hx]
          simp

theorem jsinv_reach (js : JoinState) (h : ReachJS js) : JSInv js := by
  induction h with
  | empty =>
    refine ⟨by simp [JoinState.emptyJ], by simp [JoinState.emptyJ], ?_⟩
    intro i l2
    simp [JoinState.emptyJ]
  | mark a b hr ih => exact (jsinv_mark _ a b ih).1

theorem alookup_of_mem_nodup {α β : Type} [DecidableEq α] {l : List (α × β)} {k : α} {v : β}
    (hnd : (l.map Prod.fst).Nodup) (h : (k, v) ∈ l) : alookup l k = some v := by
  induction l with
  | nil => simp at h
  | cons p t ih =>
    obtain ⟨k0, v0⟩ := p
    rcases List.mem_cons.mp h with h | h
    · injection h with h1 h2
      subst h1
      subst h2
      simp
    · have hk : k0 ≠ k := by
        intro he
        subst he
        have : k0 ∈ t.map Prod.fst := List.mem_map.mpr ⟨(k0, v), h, rfl⟩
        exact absurd this (List.nodup_cons.mp (by simpa using hnd)).1
      simp only [alookup_cons, hk, if_false]
      exact ih (List.nodup_cons.mp (by simpa using hnd)).2 h

theorem jsinv_disjoint (js : JoinState) (hinv : JSInv js) :
    js.sets.Pairwise (fun p q => ∀ i, i ∈ p.2 → i ∉ q.2) := by
  obtain ⟨hnd, _, hex⟩ := hinv
  have hpw : js.sets.Pairwise (fun p q => p.1 ≠ q.1) := List.pairwise_map.mp hnd
  refine hpw.imp_of_mem ?_
  intro p q hp hq hne i hip hiq
  have h1 := (hex i p.1).mpr ⟨p.2, alookup_of_mem_nodup hnd (by simpa using hp), hip⟩
  have h2 := (hex i q.1).mpr ⟨q.2, alookup_of_mem_nodup hnd (by simpa using hq), hiq⟩
  rw [h1] at h2
  injection h2 with h2
  exact hne h2

theorem foldlM_join_map (c : Nat) (rest : List Nat) (cc : connected_clusters) :
    rest.foldlM (fun a2 c2 => a2.join_cluster_with c c2) cc
      = (rest.map (fun c2 => (c, c2))).foldlM
          (fun a2 pr => a2.join_cluster_with pr.1 pr.2) cc := by
  induction rest generalizing cc with
  | nil => rfl
  | cons x t ih =>
    rw [List.foldlM_cons, List.map_cons, List.foldlM_cons]
    show (cc.join_cluster_with c x) >>= _ = (cc.join_cluster_with c x) >>= _
    cases cc.join_cluster_with c x with
    | none => rfl
    | some cc2 =>
      show t.foldlM _ cc2 = _
      exact ih cc2

theorem join_superclusters_eq_pairs (js : JoinState) (cc : connected_clusters) :
    join_superclusters js cc = joinPairs (supersJoinPairs js) cc := by
  unfold join_superclusters supersJoinPairs joinPairs
  generalize js.sets = l
  induction l generalizing cc with
  | nil => rfl
  | cons p t ih =>
    simp only [List.foldlM_cons, List.flatMap_cons, List.foldlM_append]
    cases hsort : p.2.sort (· ≤ ·) with
    | nil =>
      show t.foldlM _ cc = _
      rw [ih cc]
      rfl
    | cons c rest =>
      show (rest.foldlM (fun a2 c2 => a2.join_cluster_with c c2) cc) >>= _
        = ((rest.map (fun c2 => (c, c2))).foldlM
            (fun a2 pr => a2.join_cluster_with pr.1 pr.2) cc) >>= _
      rw [foldlM_join_map]
      cases (rest.map (fun c2 => (c, c2))).foldlM
          (fun a2 pr => a2.join_cluster_with pr.1 pr.2) cc with
      | none => rfl
      | some cc2 =>
        show t.foldlM _ cc2 = _
        exact ih cc2

theorem supersJoinPairs_spec (js : JoinState) (pr : Nat × Nat)
    (h : pr ∈ supersJoinPairs js) :
    ∃ p ∈ js.sets, pr.1 ∈ p.2 ∧ pr.2 ∈ p.2 ∧ pr.1 ≠ pr.2 ∧ ∀ x ∈ p.2, pr.1 ≤ x := by
  unfold supersJoinPairs at h
  obtain ⟨p, hp, hpr⟩ := List.mem_flatMap.mp h
  refine ⟨p, hp, ?_⟩
  cases hsort : p.2.sort (· ≤ ·) with
  | nil =>
    rw [hsort] at hpr
    simp at hpr
  | cons c rest =>
    rw [hsort] at hpr
    obtain ⟨c2, hc2, hpr2⟩ := List.mem_map.mp hpr
    subst hpr2
    have hsorted : List.Sorted (· ≤ ·) (c :: rest) := by
      rw [← hsort]
      exact Finset.sort_sorted _ _
    have hnodup : (c :: rest).Nodup := by
      rw [← hsort]
      exact Finset.sort_nodup _ _
    have hmemc : c ∈ p.2 := (Finset.mem_sort _).mp (by rw [hsort]; exact List.mem_cons_self c rest)
    have hmemc2 : c2 ∈ p.2 :=
      (Finset.mem_sort _).mp (by rw [hsort]; exact List.mem_cons_of_mem c hc2)
    refine ⟨hmemc, hmemc2, ?_, ?_⟩
    · intro he
      have he2 : c = c2 := he
      subst he2
      exact absurd hc2 (List.nodup_cons.mp hnodup).1
    · intro x hx
      have hx2 : x ∈ c :: rest := by
        rw [← hsort]
        exact (Finset.mem_sort _).mpr hx
      rcases List.mem_cons.mp hx2 with h2 | h2
      · subst h2
        exact Nat.le.refl
      · exact (List.sorted_cons.mp hsorted).1 x h2

theorem local_promote_buffers (cc : connected_clusters) (js : JoinState)
    (c1 : Nat) (k2 : ClusterInstance) (h : cc.find_cluster_with_connection k2 ≠ 0) :
    (local_promote cc js c1 k2).1 = cc := by
  unfold local_promote
  rw [if_pos (Nat.pos_of_ne_zero h)]

/-- Claim C4: for every state of the deferred join structure reachable by
mark_to_join calls, the equivalence sets are pairwise disjoint, the id-to-set
map is exact, and a further mark_to_join (a, b) leaves a and b recorded in
the same set; join_superclusters performs exactly the joins (first member,
later member), set by set, with the first member the minimum of its set; and
the local-to-instance promotion step buffers rather than joining: when the
child path is already connected, the cell clusters are left untouched. -/
theorem mark_to_join_invariants (js : JoinState) (h : ReachJS js) :
    js.sets.Pairwise (fun p q => ∀ i, i ∈ p.2 → i ∉ q.2)
    ∧ (∀ i l2, alookup js.idx i = some l2 ↔ ∃ s, alookup js.sets l2 = some s ∧ i ∈ s)
    ∧ (∀ a b, alookup (mark_to_join js a b).idx a = alookup (mark_to_join js a b).idx b
        ∧ alookup (mark_to_join js a b).idx a ≠ none)
    ∧ (∀ cc, join_superclusters js cc = joinPairs (supersJoinPairs js) cc)
    ∧ (∀ pr ∈ supersJoinPairs js, ∃ p ∈ js.sets,
        pr.1 ∈ p.2 ∧ pr.2 ∈ p.2 ∧ pr.1 ≠ pr.2 ∧ ∀ x ∈ p.2, pr.1 ≤ x)
    ∧ (∀ cc js2 c1 k2, connected_clusters.find_cluster_with_connection cc k2 ≠ 0 →
        (local_promote cc js2 c1 k2).1 = cc) := by
  have hinv := jsinv_reach js h
  refine ⟨jsinv_disjoint js hinv, hinv.2.2, ?_, ?_, ?_, ?_⟩
  · intro a b
    exact ⟨(jsinv_mark js a b hinv).2.1, (jsinv_mark js a b hinv).2.2⟩
  · intro cc
    exact join_superclusters_eq_pairs js cc
  · intro pr hpr
    exact supersJoinPairs_spec js pr hpr
  · intro cc js2 c1 k2 hf
    exact local_promote_buffers cc js2 c1 k2 hf

/-- Witness for C4 at a concrete reachable join state. -/
theorem mark_to_join_invariants_witness :
    alookup (mark_to_join (mark_to_join JoinState.emptyJ 1 2) 2 3).idx 2
        = alookup (mark_to_join (mark_to_join JoinState.emptyJ 1 2) 2 3).idx 3
    ∧ alookup (mark_to_join (mark_to_join JoinState.emptyJ 1 2) 2 3).idx 2 ≠ none :=
  (mark_to_join_invariants (mark_to_join JoinState.emptyJ 1 2)
    (ReachJS.mark 1 2 ReachJS.empty)).2.2.1 2 3

/-! ## do_build pass 2: bottom-up order (claim C5) -/

/-- A cell list is topologically ordered relative to `seen`: each cell's
children all occur in `seen` or earlier in the list.  This is the contract of
layout.begin_bottom_up (children are delivered before their parents). -/
def topo_ok (children : Nat → List Nat) : List Nat → List Nat → Bool
  | _, [] => true
  | seen, c :: rest =>
    (children c).all (fun d => decide (d ∈ seen)) && topo_ok children (seen ++ [c]) rest

/-- The child relation: d is a direct child cell of c. -/
def ChildRel (children : Nat → List Nat) (d c : Nat) : Prop := d ∈ children c

theorem pass2_acc (children : Nat → List Nat) (called : List Nat) :
    ∀ (cells : List Nat) (st : List Nat × List Nat),
      (cells.foldl (pass2_step children called) st).1
          ++ (cells.foldl (pass2_step children called) st).2
        = st.1 ++ st.2 ++ cells.filter (fun c => decide (c ∈ called)) := by
  intro cells
  induction cells with
  | nil =>
    intro st
    simp
  | cons c t ih =>
    intro st
    rw [List.foldl_cons, List.filter_cons]
    by_cases hc : c ∈ called
    · by_cases hall : ((children c).all (fun d => decide (d ∈ st.1))) = true
      · have hstep : pass2_step children called st c = (st.1, st.2 ++ [c]) := by
          unfold pass2_step
          rw [if_pos hc, if_pos hall]
        rw [if_pos (by simpa using hc), hstep, ih]
        simp
      · have hstep : pass2_step children called st c = (st.1 ++ st.2, [c]) := by
          unfold pass2_step
          rw [if_pos hc, if_neg hall]
        rw [if_pos (by simpa using hc), hstep, ih]
        simp
    · have hstep : pass2_step children called st c = st := by
        unfold pass2_step
        rw [if_neg hc]
      rw [if_neg (by simpa using hc), hstep, ih]

theorem build_order_filter (children : Nat → List Nat) (called cells : List Nat) :
    build_order children called cells = cells.filter (fun c => decide (c ∈ called)) := by
  unfold build_order
  have h := pass2_acc children called cells ([], [])
  simpa using h

theorem topo_filter (children : Nat → List Nat) (called : List Nat)
    (hclosed : ∀ c ∈ called, ∀ d ∈ children c, d ∈ called) :
    ∀ (cells seen seen2 : List Nat),
      (∀ x ∈ seen, x ∈ called → x ∈ seen2) →
      topo_ok children seen cells = true →
      topo_ok children seen2 (cells.filter (fun c => decide (c ∈ called))) = true := by
  intro cells
  induction cells with
  | nil =>
    intro seen seen2 hsub h
    simp [topo_ok]
  | cons c t ih =>
    intro seen seen2 hsub h
    rw [topo_ok, Bool.and_eq_true] at h
    obtain ⟨h1, h2⟩ := h
    rw [List.filter_cons]
    by_cases hc : c ∈ called
    · rw [if_pos (by simpa using hc)]
      rw [topo_ok, Bool.and_eq_true]
      constructor
      · rw [List.all_eq_true]
        intro d hd
        rw [decide_eq_true_eq]
        have hds : d ∈ seen := by
          have := (List.all_eq_true.mp h1) d hd
          rwa [decide_eq_true_eq] at this
        exact hsub d hds (hclosed c hc d hd)
      · refine ih (seen ++ [c]) (seen2 ++ [c]) ?_ h2
        intro x hx hxc
        rcases List.mem_append.mp hx with hx | hx
        · exact List.mem_append_left _ (hsub x hx hxc)
        · exact List.mem_append_right _ hx
    · rw [if_neg (by simpa using hc)]
      refine ih (seen ++ [c]) seen2 ?_ h2
      intro x hx hxc
      rcases List.mem_append.mp hx with hx | hx
      · exact hsub x hx hxc
      · simp only [List.mem_cons, List.not_mem_nil, or_false] at hx
        subst hx
        exact absurd hxc hc

theorem topo_split (children : Nat → List Nat) :
    ∀ (l seen : List Nat), topo_ok children seen l = true →
      ∀ xs c ys, l = xs ++ c :: ys → ∀ d ∈ children c, d ∈ seen ++ xs := by
  intro l
  induction l with
  | nil =>
    intro seen h xs c ys heq
    cases xs <;> simp at heq
  | cons a t ih =>
    intro seen h xs c ys heq
    rw [topo_ok, Bool.and_eq_true] at h
    obtain ⟨h1, h2⟩ := h
    cases xs with
    | nil =>
      simp only [List.nil_append, List.cons.injEq] at heq
      obtain ⟨heq1, _⟩ := heq
      subst heq1
      intro d hd
      have := (List.all_eq_true.mp h1) d hd
      rw [decide_eq_true_eq] at this
      simpa using this
    | cons x xs2 =>
      simp only [List.cons_append, List.cons.injEq] at heq
      obtain ⟨heq1, heq2⟩ := heq
      subst heq1
      intro d hd
      have := ih (seen ++ [a]) h2 xs2 c ys heq2 d hd
      simp only [List.append_assoc, List.singleton_append] at this ⊢
      exact this

theorem topo_transgen (children : Nat → List Nat) (l : List Nat)
    (h : topo_ok children [] l = true) :
    ∀ c d, Relation.TransGen (ChildRel children) d c →
      ∀ xs ys, l = xs ++ c :: ys → d ∈ xs := by
  intro c d hd
  induction hd with
  | single hdc =>
    intro xs ys heq
    simpa using topo_split children l [] h xs _ ys heq d hdc
  | @tail b c2 hdb hbc ih =>
    intro xs ys heq
    have hbxs : b ∈ xs := by
      simpa using topo_split children l [] h xs c2 ys heq b hbc
    obtain ⟨xs1, xs2, hxs⟩ := List.append_of_mem hbxs
    have heq2 : l = xs1 ++ b :: (xs2 ++ c2 :: ys) := by
      rw [heq, hxs]
      simp
    have hd1 : d ∈ xs1 := ih xs1 (xs2 ++ c2 :: ys) heq2
    rw [hxs]
    exact List.mem_append_left _ hd1

/-- Claim C5: pass 2 of do_build invokes build_hier_connections exactly on the
called cells, in the order of the bottom-up cell list (batching and flushing
change nothing in the invocation order); every called cell is built exactly
once; and the invocation order is itself bottom-up — when a cell is built,
all its direct children, and transitively every cell reachable from it, have
been built earlier. -/
theorem do_build_bottom_up (children : Nat → List Nat) (called cells : List Nat)
    (htopo : topo_ok children [] cells = true)
    (hnd : cells.Nodup)
    (hclosed : ∀ c ∈ called, ∀ d ∈ children c, d ∈ called) :
    build_order children called cells = cells.filter (fun c => decide (c ∈ called))
    ∧ (∀ c, c ∈ called → c ∈ cells → (build_order children called cells).count c = 1)
    ∧ topo_ok children [] (build_order children called cells) = true
    ∧ (∀ xs c ys, build_order children called cells = xs ++ c :: ys →
        ∀ d ∈ children c, d ∈ xs)
    ∧ (∀ xs c ys, build_order children called cells = xs ++ c :: ys →
        ∀ d, Relation.TransGen (ChildRel children) d c → d ∈ xs) := by
  have hbo := build_order_filter children called cells
  have htf : topo_ok children []
      (cells.filter (fun c => decide (c ∈ called))) = true :=
    topo_filter children called hclosed cells [] [] (by intro x hx; simp at hx) htopo
  refine ⟨hbo, ?_, ?_, ?_, ?_⟩
  · intro c hcalled hcells
    rw [hbo]
    have hndf : (cells.filter (fun c => decide (c ∈ called))).Nodup := hnd.filter _
    have hmem : c ∈ cells.filter (fun c => decide (c ∈ called)) := by
      rw [List.mem_filter]
      exact ⟨hcells, by simpa using hcalled⟩
    have hle := List.nodup_iff_count_le_one.mp hndf c
    have hpos := List.count_pos_iff.mpr hmem
    omega
  · rw [hbo]
    exact htf
  · intro xs c ys heq d hd
    rw [hbo] at heq
    simpa using topo_split children _ [] htf xs c ys heq d hd
  · intro xs c ys heq d hd
    rw [hbo] at heq
    exact topo_transgen children _ htf c d hd xs ys heq

/-- Witness for C5 at a three-cell chain (cells listed bottom-up): the build
order is the filtered bottom-up list. -/
theorem do_build_bottom_up_witness :
    build_order (fun n => if n = 0 then [1] else if n = 1 then [2] else [])
        [0, 1, 2] [2, 1, 0]
      = ([2, 1, 0].filter (fun c => decide (c ∈ [0, 1, 2]))) :=
  (do_build_bottom_up (fun n => if n = 0 then [1] else if n = 1 then [2] else [])
    [0, 1, 2] [2, 1, 0] (by decide) (by decide) (by decide)).1
